import Mathlib

/-!
# PsychoPlug timezone engine (`timezone.cpp`)

A shallow embedding of the timezone rule engine of PsychoPlug and a list of
theorems about it.

Conventions of the embedding.

* The statics of `timezone.cpp` (`timezoneNum`, `utcOffsetSecs`, `useDSTRule`,
  `dstYear`, `dstChangeAtUTC`, `dstOffsetSecs`, `timezoneStr`, `dstString`)
  are the fields of `State`, passed explicitly.
* The tables of `tz.h` (`mtimezone`, `link`, `rules`) and the sentinel
  `RULE_NONE` are the fields of `Catalog`.
* `time_t` values are integers; the additions done by `timezone.cpp` itself
  are exact, the arithmetic inside TimeLib is `uint32_t` as in the library.
  `uint8_t` and `uint16_t` stores are reduced modulo 256 and 65536.
* C strings are lists of characters without the terminating NUL.
* Reading a table past its end has no defined result: operations that would
  do so return `none`.
* `mktime` ends without a `return` statement and never calls `makeTime`. The
  value its callers read is undefined in C; the embedding takes the value the
  compiled function is observed to return, the number of years since 1970
  that its last assignment computes. Every instant the solver resolves then
  lies within weeks of the epoch.
-/

namespace PsychoPlug

/-! ## Calendar adapter (TimeLib) -/

abbrev SECS_PER_MIN : Nat := 60
abbrev SECS_PER_HOUR : Nat := 3600
abbrev SECS_PER_DAY : Nat := 86400

/-- The `struct tm` of `timezone.cpp` (`tm_isdst` is written once and never read). -/
structure tm where
  tm_sec : Nat
  tm_min : Nat
  tm_hour : Nat
  tm_wday : Nat
  tm_mday : Nat
  tm_mon : Nat
  tm_year : Nat
  deriving DecidableEq, Repr

/-- TimeLib time elements: `Wday` has Sunday = 1, `Month` has January = 1,
`Year` counts from 1970. -/
structure tmElements_t where
  Second : Nat
  Minute : Nat
  Hour : Nat
  Wday : Nat
  Day : Nat
  Month : Nat
  Year : Nat
  deriving DecidableEq, Repr

/-- Modelled from the spec: TimeLib is the external Calendar Adapter and is not
under src/. `LEAP_YEAR(Y)` of TimeLib, with `Y` counted from 1970 (Gregorian
rule). -/
def LEAP_YEAR (Y : Nat) : Bool :=
  (1970 + Y) % 4 == 0 && ((1970 + Y) % 100 != 0 || (1970 + Y) % 400 == 0)

/-- Modelled from the spec: the `monthDays` table of the external Calendar
Adapter (TimeLib), January first. -/
def monthDays : List Nat := [31, 28, 31, 30, 31, 30, 31, 31, 30, 31, 30, 31]

/-- Days of year `1970 + Y`. -/
def yearDays (Y : Nat) : Nat := if LEAP_YEAR Y then 366 else 365

/-- Length of month `month` (January = 0) of year `1970 + Y`. -/
def monthLength (Y month : Nat) : Nat :=
  if month = 1 then (if LEAP_YEAR Y then 29 else 28) else monthDays.getD month 0

/-- Year loop of `breakTime`: `(year, days before that year)` for day count
`time`. The first argument bounds the iterations; 256 covers every `uint32_t`
input (at most 136 iterations are taken). -/
def breakYear : Nat → Nat → Nat → Nat → Nat × Nat
  | 0, year, days, _ => (year, days)
  | fuel + 1, year, days, time =>
    if days + yearDays year ≤ time then
      breakYear fuel (year + 1) (days + yearDays year) time
    else (year, days)

/-- Month loop of `breakTime`: `(month, remaining days)`, January = 0; the
first argument is the number of months still to try (12 at the start). -/
def breakMonth (Y : Nat) : Nat → Nat → Nat → Nat × Nat
  | 0, month, time => (month, time)
  | fuel + 1, month, time =>
    if time ≥ monthLength Y month then
      breakMonth Y fuel (month + 1) (time - monthLength Y month)
    else (month, time)

/-- Modelled from the spec: `ToFields` of the external Calendar Adapter, as
TimeLib's `breakTime` computes it: the input is cast to `uint32_t`. -/
def breakTime (timeInput : Int) : tmElements_t :=
  let time : Nat := (timeInput % 4294967296).toNat
  let days := time / 60 / 60 / 24
  let yd := breakYear 256 0 0 days
  let md := breakMonth yd.1 12 0 (days - yd.2)
  { Second := time % 60
    Minute := time / 60 % 60
    Hour := time / 60 / 60 % 24
    Wday := (days + 4) % 7 + 1
    Day := md.2 + 1
    Month := md.1 + 1
    Year := yd.1 }

/-- Number of leap years among `1970 .. 1970 + Y - 1`. -/
def leapDaysBefore : Nat → Nat
  | 0 => 0
  | i + 1 => leapDaysBefore i + (if LEAP_YEAR i then 1 else 0)

/-- Days of the months `1 .. n` of year `1970 + Y` (the month loop of
`makeTime`). -/
def monthDaysBefore (Y : Nat) : Nat → Nat
  | 0 => 0
  | i + 1 =>
    monthDaysBefore Y i + (if i + 1 = 2 ∧ LEAP_YEAR Y = true then 29 else monthDays.getD i 0)

/-- Modelled from the spec: `FromFields` of the external Calendar Adapter, as
TimeLib's `makeTime` computes it, in `uint32_t` arithmetic (`Wday` is not
used). `timezone.cpp` declares it on line 50 and calls it nowhere. -/
def makeTime (e : tmElements_t) : Int :=
  ((e.Year : Int) * (SECS_PER_DAY * 365)
    + (leapDaysBefore e.Year : Int) * SECS_PER_DAY
    + (monthDaysBefore e.Year (e.Month - 1) : Int) * SECS_PER_DAY
    + ((e.Day : Int) - 1) * SECS_PER_DAY
    + (e.Hour : Int) * SECS_PER_HOUR
    + (e.Minute : Int) * SECS_PER_MIN
    + (e.Second : Int)) % 4294967296

/-- The function `mktime` of `timezone.cpp`, lines 40-51. The body fills the
local `tme` from `tm`; line 50 is a declaration of `makeTime`, not a call, and
the function ends without a `return` statement, so `makeTime` is never run.
C leaves the value read by the caller undefined; the embedding takes the one
the compiled function is observed to return, the last value the body
computes: `(uint8_t)(tm->tm_year - 70)`, the count of years since 1970 stored
in `tme.Year`. It is a number below 256, whatever the month and the day. -/
def mktime (t : tm) : Int :=
  (((t.tm_year + 256 - 70) % 256 : Nat) : Int)

/-- The function `gmtime` of `timezone.cpp`, lines 53-66. -/
def gmtime (timep : Int) : tm :=
  let tme := breakTime timep
  { tm_sec := tme.Second
    tm_min := tme.Minute
    tm_hour := tme.Hour
    tm_wday := tme.Wday - 1
    tm_mday := tme.Day
    tm_mon := tme.Month
    tm_year := tme.Year + 70 }

/-! ## Catalog (`tz.h`) -/

/-- Day trigger of a rule (`tz.h`): weekday on or after a day, last weekday of
the month, or a given day. -/
inductive daytrig_t
  | SUN_GTEQ | MON_GTEQ | TUE_GTEQ | WED_GTEQ | THU_GTEQ | FRI_GTEQ | SAT_GTEQ
  | SUN_LAST | MON_LAST | TUE_LAST | WED_LAST | THU_LAST | FRI_LAST | SAT_LAST
  | GIVEN_DAY
  deriving DecidableEq, Repr

/-- Reference of a rule's trigger time (`tz.h`): UTC, standard local time, wall
time. -/
inductive atref_t
  | ATREF_U | ATREF_S | ATREF_W
  deriving DecidableEq, Repr

/-- A DST rule (`rule_t` of `tz.h`). -/
structure rule_t where
  name : Nat
  month : Nat
  daytrig : daytrig_t
  daynum : Nat
  athr : Int
  atmin : Nat
  atref : atref_t
  offsethrs : Int
  offsetmins : Nat
  fmtstr : List Char
  deriving DecidableEq, Repr

/-- A canonical timezone entry (`mtimezone[]` of `tz.h`). -/
structure timezone_t where
  zonename : List Char
  zoneNameFromPrev : Nat
  gmtoffhr : Int
  gmtoffmin : Nat
  rule : Nat
  formatstr : List Char
  deriving DecidableEq, Repr

/-- An alias (`link[]` of `tz.h`); `timezone` is the index of the canonical
entry. -/
structure link_t where
  zonename : List Char
  zoneNameFromPrev : Nat
  timezone : Nat
  deriving DecidableEq, Repr

/-- The compiled-in tables of `tz.h`. -/
structure Catalog where
  mtimezone : List timezone_t
  link : List link_t
  rules : List rule_t
  RULE_NONE : Nat
  deriving DecidableEq, Repr

/-! ## Catalog lookup -/

/-- The call `strlcpy(buff + off, src, size - off)` on the C string `buff` held
in an array of `size` bytes: the first `off` characters stay, `src` follows, cut
so that the string and its NUL fit. When `off` lies past the end of the
string, the old NUL still ends it and the string read back is unchanged. -/
def strlcpyAt (size : Nat) (buff : List Char) (off : Nat) (src : List Char) : List Char :=
  if off ≤ buff.length then buff.take off ++ src.take (size - off - 1) else buff

/-- The first loop of `FindTZName` (lines 97-100) from index `i` with buffer
`buff`: the index found, or the buffer left after the last entry. -/
def tzLoop (tzname : List Char) : List timezone_t → Nat → List Char → Nat ⊕ List Char
  | [], _, buff => .inr buff
  | z :: zs, i, buff =>
    let buff1 := strlcpyAt 64 buff z.zoneNameFromPrev z.zonename
    if buff1 = tzname then .inl i else tzLoop tzname zs (i + 1) buff1

/-- The second loop of `FindTZName` (lines 101-104). -/
def linkLoop (tzname : List Char) : List link_t → List Char → Option Nat
  | [], _ => none
  | l :: ls, buff =>
    let buff1 := strlcpyAt 64 buff l.zoneNameFromPrev l.zonename
    if buff1 = tzname then some l.timezone else linkLoop tzname ls buff1

/-- The function `FindTZName` of `timezone.cpp`, lines 92-106. The local buffer
starts empty. -/
def FindTZName (cat : Catalog) (tzname : List Char) : Int :=
  match tzLoop tzname cat.mtimezone 0 [] with
  | .inl i => (i : Int)
  | .inr buff =>
    match linkLoop tzname cat.link buff with
    | some k => (k : Int)
    | none => -1

/-! ## Active timezone state -/

/-- The file-level statics of `timezone.cpp`, lines 108-115. -/
structure State where
  timezoneNum : Nat
  utcOffsetSecs : Int
  useDSTRule : Bool
  dstYear : Nat
  dstChangeAtUTC : Int × Int
  dstOffsetSecs : Int × Int
  timezoneStr : List Char
  dstString : List Char × List Char
  deriving DecidableEq, Repr

/-- The statics as initialised at program start. -/
def State.init : State :=
  { timezoneNum := 0
    utcOffsetSecs := 0
    useDSTRule := false
    dstYear := 1900
    dstChangeAtUTC := (0, 0)
    dstOffsetSecs := (0, 0)
    timezoneStr := []
    dstString := ([], []) }

/-! ## DST transition solver -/

/-- Weekday (Sunday = 0) that the first `switch` of `UpdateDSTInfo` steps to,
`none` for `GIVEN_DAY`. -/
def daytrig_t.wday : daytrig_t → Option Nat
  | .SUN_GTEQ | .SUN_LAST => some 0
  | .MON_GTEQ | .MON_LAST => some 1
  | .TUE_GTEQ | .TUE_LAST => some 2
  | .WED_GTEQ | .WED_LAST => some 3
  | .THU_GTEQ | .THU_LAST => some 4
  | .FRI_GTEQ | .FRI_LAST => some 5
  | .SAT_GTEQ | .SAT_LAST => some 6
  | .GIVEN_DAY => none

/-- The `*_GTEQ` cases of the second `switch`. -/
def daytrig_t.isGTEQ : daytrig_t → Bool
  | .SUN_GTEQ | .MON_GTEQ | .TUE_GTEQ | .WED_GTEQ | .THU_GTEQ | .FRI_GTEQ | .SAT_GTEQ => true
  | _ => false

/-- The `*_LAST` cases of the second `switch`. -/
def daytrig_t.isLAST : daytrig_t → Bool
  | .SUN_LAST | .MON_LAST | .TUE_LAST | .WED_LAST | .THU_LAST | .FRI_LAST | .SAT_LAST => true
  | _ => false

/-- The loop `while (w != t.tm_wday) {...}` of lines 164-188 on
`(tm_wday, tm_mday, at)`; seven iterations cover every weekday below 7. -/
def wdayLoop (w : Nat) : Nat → Nat → Nat → Int → Nat × Nat × Int
  | 0, wday, mday, a => (wday, mday, a)
  | fuel + 1, wday, mday, a =>
    if w ≠ wday then wdayLoop w fuel ((wday + 1) % 7) ((mday + 1) % 256) (a + SECS_PER_DAY)
    else (wday, mday, a)

/-- The loop `while (t.tm_mday < daynum) {...}` of line 204 on
`(tm_mday, at)`; `tm_mday` is a `uint8_t`, 256 iterations cover every
`daynum` up to 255. -/
def gteqLoop (daynum : Nat) : Nat → Nat → Int → Nat × Int
  | 0, mday, a => (mday, a)
  | fuel + 1, mday, a =>
    if mday < daynum then gteqLoop daynum fuel ((mday + 7) % 256) (a + SECS_PER_DAY * 7)
    else (mday, a)

/-- The loop `while (t.tm_mon == month) {...}` of lines 214-217 on
`(tm_mon, at)`; a month holds at most five steps of a week. -/
def lastLoop (month : Nat) : Nat → Nat → Int → Int
  | 0, _, a => a
  | fuel + 1, mon, a =>
    if mon = month then
      lastLoop month fuel (gmtime (a + 7 * SECS_PER_DAY)).tm_mon (a + 7 * SECS_PER_DAY)
    else a

/-- Lines 148-221 of `UpdateDSTInfo` for one rule: the value of `at` on line
222, when the day of the event in year `curYear` has been resolved and the
trigger time is not yet added. -/
def resolveDay (curYear : Nat) (r : rule_t) : Int :=
  let t0 : tm :=
    { tm_year := (curYear + 65536 - 1900) % 65536
      tm_mon := r.month % 256
      tm_mday := 1
      tm_hour := 0
      tm_min := 0
      tm_sec := 0
      tm_wday := 0 }
  let at0 := mktime t0
  let t := gmtime at0
  match r.daytrig.wday with
  | none =>
    -- GIVEN_DAY
    mktime { t with tm_mday := r.daynum % 256 }
  | some w =>
    let st := wdayLoop w 7 t.tm_wday t.tm_mday at0
    if r.daytrig.isGTEQ then (gteqLoop r.daynum 256 st.2.1 st.2.2).2
    else lastLoop r.month 6 t.tm_mon st.2.2 - 7 * SECS_PER_DAY

/-- Lines 223-224: seconds from midnight to the trigger time. -/
def secToFire (r : rule_t) : Int :=
  let s : Int := (r.athr.natAbs : Int) * SECS_PER_HOUR + (r.atmin : Int) * SECS_PER_MIN
  if r.athr < 0 then -s else s

/-- Lines 228-229 (and 230-231 for the other rule): the rule's offset. -/
def dstoffsecs (r : rule_t) : Int :=
  let s : Int := (r.offsethrs.natAbs : Int) * 3600 + (r.offsetmins : Int)
  if r.offsethrs < 0 then -s else s

/-- One pass of the loop of lines 147-249 for rule `r`, `other` being
`dstRule[i?0:1]`: the value stored in `dstChangeAtUTC[i]`. -/
def changeAtUTC (utcOffsetSecs : Int) (curYear : Nat) (r other : rule_t) : Int :=
  let a := resolveDay curYear r + secToFire r
  match r.atref with
  | .ATREF_U => a
  | .ATREF_S => a - utcOffsetSecs
  | .ATREF_W => a - utcOffsetSecs - dstoffsecs other

/-- The loop of lines 126-132: the rules copied into `dstRule`, in order;
`acc` holds the `ruleIdx` rules copied so far. -/
def ruleLoop (name : Nat) : List rule_t → List rule_t → List rule_t
  | [], acc => acc
  | r :: rs, acc =>
    if acc.length < 2 then
      (if r.name = name then ruleLoop name rs (acc ++ [r]) else ruleLoop name rs acc)
    else acc

/-- The call `strlcpy(dst, src, size)`. -/
def strlcpy (size : Nat) (src : List Char) : List Char := src.take (size - 1)

/-- The function `UpdateDSTInfo` of `timezone.cpp`, lines 117-250. -/
def UpdateDSTInfo (cat : Catalog) (s : State) (whenUTC : Int) : Option State :=
  match cat.mtimezone[s.timezoneNum]? with
  | none => none
  | some z =>
    match ruleLoop z.rule cat.rules [] with
    | [r0, r1] =>
      let curYear := 1900 + (gmtime whenUTC).tm_year
      some { s with
        dstString := (strlcpy 4 r0.fmtstr, strlcpy 4 r1.fmtstr)
        dstYear := curYear % 65536
        dstChangeAtUTC :=
          (changeAtUTC s.utcOffsetSecs curYear r0 r1, changeAtUTC s.utcOffsetSecs curYear r1 r0)
        dstOffsetSecs := (dstoffsecs r0, dstoffsecs r1) }
    | _ => some { s with useDSTRule := false }

/-! ## Local time projector -/

/-- The function `LocalTime` of `timezone.cpp`, lines 252-267: the state left
behind and the value returned. -/
def LocalTime (cat : Catalog) (s : State) (whenUTC : Int) : Option (State × Int) :=
  let t := gmtime whenUTC
  let upd : Option State :=
    if s.dstYear ≠ t.tm_year + 1900 ∧ s.useDSTRule = true then UpdateDSTInfo cat s whenUTC
    else some s
  match upd with
  | none => none
  | some s1 =>
    if s1.useDSTRule = false then some (s1, whenUTC + s1.utcOffsetSecs)
    else if whenUTC ≥ s1.dstChangeAtUTC.1 ∧ whenUTC < s1.dstChangeAtUTC.2 then
      some (s1, whenUTC + s1.utcOffsetSecs + s1.dstOffsetSecs.1)
    else some (s1, whenUTC + s1.utcOffsetSecs + s1.dstOffsetSecs.2)

/-- Lines 307-308 of `SetTZ`: the value left in the `uint16_t` static
`timezoneNum`. The test `timezoneNum<0` is made on the stored value. -/
def SetTZ_timezoneNum (cat : Catalog) (tzName : List Char) : Nat :=
  let timezoneNum : Nat := (FindTZName cat tzName % 65536).toNat
  if (timezoneNum : Int) < 0 then (FindTZName cat "UTC".toList % 65536).toNat else timezoneNum

/-- Lines 311-312 of `SetTZ`: the value stored in `utcOffsetSecs` for entry
`z`. -/
def gmtoffsecs (z : timezone_t) : Int :=
  let u : Int := (z.gmtoffhr.natAbs : Int) * 3600 + (z.gmtoffmin : Int)
  if z.gmtoffhr < 0 then -u else u

/-- The function `SetTZ` of `timezone.cpp`, lines 305-324. -/
def SetTZ (cat : Catalog) (s : State) (tzName : List Char) : Option State :=
  let timezoneNum := SetTZ_timezoneNum cat tzName
  match cat.mtimezone[timezoneNum]? with
  | none => none
  | some z =>
    let s1 : State :=
      { s with
        timezoneNum := timezoneNum
        utcOffsetSecs := gmtoffsecs z
        timezoneStr := strlcpy 16 z.formatstr }
    if z.rule = cat.RULE_NONE then some { s1 with useDSTRule := false }
    else some { s1 with useDSTRule := true, dstYear := 0 }

/-! ## Runs and the cache invariant -/

/-- A run of `LocalTime` calls, one per instant of the list: the state left
behind. -/
def LocalTimes (cat : Catalog) (s : State) : List Int → Option State
  | [] => some s
  | u :: us => (LocalTime cat s u).bind fun r => LocalTimes cat r.1 us

/-- The cached transition data of `s` is the solver's for the year `s.dstYear`
(or the cache is invalid), for the zone with base offset `base` and rule pair
`r0`, `r1` at index `n`. -/
def CacheOK (base : Int) (r0 r1 : rule_t) (n : Nat) (s : State) : Prop :=
  s.timezoneNum = n ∧ s.utcOffsetSecs = base ∧ s.useDSTRule = true ∧
  (s.dstYear = 0 ∨
    (s.dstChangeAtUTC = (changeAtUTC base s.dstYear r0 r1, changeAtUTC base s.dstYear r1 r0)
      ∧ s.dstOffsetSecs = (dstoffsecs r0, dstoffsecs r1)
      ∧ s.dstString = (strlcpy 4 r0.fmtstr, strlcpy 4 r1.fmtstr)))

/-- The instant `u` lies in the window `[T0, T1)` that the solver computes for
the UTC year of `u`, for base offset `base` and rule pair `r0`, `r1`. -/
def inWindow (base : Int) (r0 r1 : rule_t) (u : Int) : Prop :=
  changeAtUTC base (1900 + (gmtime u).tm_year) r0 r1 ≤ u
    ∧ u < changeAtUTC base (1900 + (gmtime u).tm_year) r1 r0

instance (base : Int) (r0 r1 : rule_t) (u : Int) : Decidable (inWindow base r0 r1 u) :=
  inferInstanceAs (Decidable (_ ∧ _))

/-- Value of `LocalTime(u)` for base offset `base` and rule pair `r0`, `r1`,
with the transition data of the UTC year of `u`. -/
def localValue (base : Int) (r0 r1 : rule_t) (u : Int) : Int :=
  if inWindow base r0 r1 u then u + base + dstoffsecs r0 else u + base + dstoffsecs r1

/-! ## Example catalogs -/

/-- A two-zone catalog: UTC and a US Eastern style zone (second Sunday of
March 02:00 standard time, first Sunday of November 02:00 wall time). -/
def usEastern : Catalog :=
  { mtimezone :=
      [ { zonename := "UTC".toList, zoneNameFromPrev := 0, gmtoffhr := 0, gmtoffmin := 0,
          rule := 0, formatstr := "UTC".toList },
        { zonename := "America/New_York".toList, zoneNameFromPrev := 0, gmtoffhr := -5,
          gmtoffmin := 0, rule := 1, formatstr := "E%sT".toList } ]
    link := []
    rules :=
      [ { name := 1, month := 3, daytrig := .SUN_GTEQ, daynum := 8, athr := 2, atmin := 0,
          atref := .ATREF_S, offsethrs := 1, offsetmins := 0, fmtstr := "D".toList },
        { name := 1, month := 11, daytrig := .SUN_GTEQ, daynum := 1, athr := 2, atmin := 0,
          atref := .ATREF_W, offsethrs := 0, offsetmins := 0, fmtstr := "S".toList } ]
    RULE_NONE := 0 }

/-- The catalog `usEastern` with the two rules listed in the opposite order. -/
def usEasternSwapped : Catalog :=
  { usEastern with rules := usEastern.rules.reverse }

/-- A southern-hemisphere style zone whose rule pair lists the rule of October
(entry into DST) before the rule of April (exit). -/
def sydney : Catalog :=
  { mtimezone :=
      [ { zonename := "UTC".toList, zoneNameFromPrev := 0, gmtoffhr := 0, gmtoffmin := 0,
          rule := 0, formatstr := "UTC".toList },
        { zonename := "Australia/Sydney".toList, zoneNameFromPrev := 0, gmtoffhr := 10,
          gmtoffmin := 0, rule := 2, formatstr := "AE%sT".toList } ]
    link := []
    rules :=
      [ { name := 2, month := 10, daytrig := .SUN_GTEQ, daynum := 1, athr := 2, atmin := 0,
          atref := .ATREF_S, offsethrs := 1, offsetmins := 0, fmtstr := "D".toList },
        { name := 2, month := 4, daytrig := .SUN_GTEQ, daynum := 1, athr := 2, atmin := 0,
          atref := .ATREF_S, offsethrs := 0, offsetmins := 0, fmtstr := "S".toList } ]
    RULE_NONE := 0 }

/-- The catalog `usEastern` with a third rule of the same name. -/
def threeRules : Catalog :=
  { usEastern with
    rules := usEastern.rules ++
      [ { name := 1, month := 12, daytrig := .GIVEN_DAY, daynum := 25, athr := 0, atmin := 0,
          atref := .ATREF_U, offsethrs := 2, offsetmins := 0, fmtstr := "X".toList } ] }

/-- The catalog `usEastern` with only the first rule of the pair. -/
def oneRule : Catalog :=
  { usEastern with rules := usEastern.rules.take 1 }

/-! ## Fully qualified names (specification side) -/

/-- The fully qualified name of an entry in the words of the specification:
the prefix inherited from the previous name (its first `off` characters)
followed by the entry's leaf name. -/
def qualify (prev : List Char) (off : Nat) (leaf : List Char) : List Char :=
  prev.take off ++ leaf

/-- The fully qualified names of a run of `(zoneNameFromPrev, zonename)`
entries that follows the name `prev`. -/
def qualifiedNames (prev : List Char) : List (Nat × List Char) → List (List Char)
  | [] => []
  | e :: rest => qualify prev e.1 e.2 :: qualifiedNames (qualify prev e.1 e.2) rest

/-- Every entry of the run takes its prefix inside the previous name and its
fully qualified name has at most 63 characters (it fits the 64-byte buffer). -/
def namesFit (prev : List Char) : List (Nat × List Char) → Bool
  | [] => true
  | e :: rest =>
    decide (e.1 ≤ prev.length) && decide ((qualify prev e.1 e.2).length ≤ 63)
      && namesFit (qualify prev e.1 e.2) rest

/-- Index of the first element of `names` equal to `q`; the length of `names`
when there is none. -/
def firstIndex (q : List Char) : List (List Char) → Nat
  | [] => 0
  | n :: ns => if n = q then 0 else firstIndex q ns + 1

/-- Fully qualified names of the canonical entries, in table order. -/
def Catalog.zoneNames (cat : Catalog) : List (List Char) :=
  qualifiedNames [] (cat.mtimezone.map fun z => (z.zoneNameFromPrev, z.zonename))

/-- Fully qualified names of the aliases, in table order; the first alias
inherits its prefix from the last canonical name. -/
def Catalog.linkNames (cat : Catalog) : List (List Char) :=
  qualifiedNames (cat.zoneNames.getLastD [])
    (cat.link.map fun l => (l.zoneNameFromPrev, l.zonename))

/-- The names of the catalog fit the lookup buffer. -/
def Catalog.namesFit (cat : Catalog) : Bool :=
  PsychoPlug.namesFit [] (cat.mtimezone.map fun z => (z.zoneNameFromPrev, z.zonename))
    && PsychoPlug.namesFit (cat.zoneNames.getLastD [])
      (cat.link.map fun l => (l.zoneNameFromPrev, l.zonename))

/-- A catalog with inherited prefixes and aliases; the alias "UTC" carries the
name of a canonical entry. -/
def withLinks : Catalog :=
  { mtimezone :=
      [ { zonename := "America/Chicago".toList, zoneNameFromPrev := 0, gmtoffhr := -6,
          gmtoffmin := 0, rule := 1, formatstr := "C%sT".toList },
        { zonename := "New_York".toList, zoneNameFromPrev := 8, gmtoffhr := -5,
          gmtoffmin := 0, rule := 1, formatstr := "E%sT".toList },
        { zonename := "UTC".toList, zoneNameFromPrev := 0, gmtoffhr := 0,
          gmtoffmin := 0, rule := 0, formatstr := "UTC".toList } ]
    link :=
      [ { zonename := "US/Central".toList, zoneNameFromPrev := 0, timezone := 0 },
        { zonename := "Eastern".toList, zoneNameFromPrev := 3, timezone := 1 },
        { zonename := "UTC".toList, zoneNameFromPrev := 0, timezone := 1 } ]
    rules := usEastern.rules
    RULE_NONE := 0 }

/-! ## Name enumeration -/

/-- The function-level statics of `GetNextTZ`, lines 70-71 (both `uint16_t`). -/
structure Cursor where
  idxTZ : Nat
  idxLink : Nat
  deriving DecidableEq, Repr

/-- The function `GetNextTZ` of `timezone.cpp`, lines 68-90: the statics left
behind, the C string left in the caller's buffer, and the value returned
(`some` of the buffer's string, or `none` for `NULL`). `buff` is the C string
the caller's buffer holds on entry, `buffLen` the value of the `char`
parameter. -/
def GetNextTZ (cat : Catalog) (c : Cursor) (reset : Bool) (buff : List Char) (buffLen : Nat) :
    Cursor × List Char × Option (List Char) :=
  let c1 : Cursor := if reset then { idxTZ := 0, idxLink := 0 } else c
  if h : c1.idxTZ < cat.mtimezone.length then
    let z := cat.mtimezone[c1.idxTZ]
    let buff1 := strlcpyAt buffLen buff z.zoneNameFromPrev z.zonename
    ({ c1 with idxTZ := (c1.idxTZ + 1) % 65536 }, buff1, some buff1)
  else if h : c1.idxLink < cat.link.length then
    let l := cat.link[c1.idxLink]
    let buff1 := strlcpyAt buffLen buff l.zoneNameFromPrev l.zonename
    ({ c1 with idxLink := (c1.idxLink + 1) % 65536 }, buff1, some buff1)
  else (c1, buff, none)

/-- The values returned by `n` successive calls `GetNextTZ(false, buff, buffLen)`
on a buffer that only `GetNextTZ` writes. -/
def enumerate (cat : Catalog) (buffLen : Nat) : Nat → Cursor → List Char → List (Option (List Char))
  | 0, _, _ => []
  | n + 1, c, buff =>
    (GetNextTZ cat c false buff buffLen).2.2
      :: enumerate cat buffLen n (GetNextTZ cat c false buff buffLen).1
          (GetNextTZ cat c false buff buffLen).2.1

/-- The values returned by a call `GetNextTZ(true, buff, buffLen)` and the `n`
calls with `reset = false` that follow it. -/
def enumerateFromReset (cat : Catalog) (buffLen n : Nat) (c : Cursor) (buff : List Char) :
    List (Option (List Char)) :=
  (GetNextTZ cat c true buff buffLen).2.2
    :: enumerate cat buffLen n (GetNextTZ cat c true buff buffLen).1
        (GetNextTZ cat c true buff buffLen).2.1

/-! ## Presentation -/

/-- The call `snprintf(dst, size, fmt, arg)` for a format `fmt` that holds
plain text and at most one conversion, `%s` (the placeholder of
`formatstr`): the text before truncation. -/
def substS : List Char → List Char → List Char
  | [], _ => []
  | '%' :: 's' :: rest, arg => arg ++ rest
  | c :: rest, arg => c :: substS rest arg

/-- Conversion `%d` of a value that is not negative. -/
def fmtD (n : Nat) : List Char := Nat.toDigits 10 n

/-- Conversion `%02d` of a value that is not negative. -/
def fmt02D (n : Nat) : List Char := if n < 10 then '0' :: Nat.toDigits 10 n else Nat.toDigits 10 n

/-- The function `AscTime` of `timezone.cpp`, lines 269-302: the state left
behind and the string written to `buff` (cut to `buffLen - 1` characters).
`hour(t)` ... `year(t)` are the TimeLib accessors, read off `breakTime`. -/
def AscTime (cat : Catalog) (s : State) (whenUTC : Int) (use12Hr useDMY : Bool) (buffLen : Nat) :
    Option (State × List Char) :=
  match LocalTime cat s whenUTC with
  | none => none
  | some (s1, t) =>
    let tzID : List Char :=
      if s1.useDSTRule = false then strlcpy 16 s1.timezoneStr
      else if whenUTC ≥ s1.dstChangeAtUTC.1 ∧ whenUTC < s1.dstChangeAtUTC.2 then
        (substS s1.timezoneStr s1.dstString.1).take 15
      else (substS s1.timezoneStr s1.dstString.2).take 15
    let e := breakTime t
    let h := e.Hour
    let yr := e.Year + 1970
    let hA : Nat × List Char :=
      if use12Hr then
        (if h = 0 then (12, "AM".toList)
         else if h = 12 then (h, "PM".toList)
         else if h < 12 then (h, "AM".toList)
         else (h - 12, "PM".toList))
      else (h, [])
    let d1 := if useDMY then e.Day else e.Month
    let d2 := if useDMY then e.Month else e.Day
    some (s1,
      (fmtD hA.1 ++ [':'] ++ fmt02D e.Minute ++ [':'] ++ fmt02D e.Second ++ hA.2 ++ [' ']
        ++ tzID ++ [',', ' '] ++ fmtD d1 ++ ['/'] ++ fmtD d2 ++ ['/'] ++ fmtD yr).take (buffLen - 1))

/-! ## Sessions -/

/-- A call of the public interface that touches the active timezone state. -/
inductive Call
  | setTZ (tzName : List Char)
  | localTime (whenUTC : Int)
  deriving DecidableEq, Repr

/-- The state left by a sequence of calls. -/
def runCalls (cat : Catalog) (s : State) : List Call → Option State
  | [] => some s
  | .setTZ n :: cs => (SetTZ cat s n).bind fun s1 => runCalls cat s1 cs
  | .localTime u :: cs => (LocalTime cat s u).bind fun r => runCalls cat r.1 cs

/-- The state that `SetTZ("America/New_York")` leaves in the catalog
`usEastern` at program start. -/
def easternFresh : State :=
  { State.init with
    timezoneNum := 1
    utcOffsetSecs := -18000
    useDSTRule := true
    dstYear := 0
    timezoneStr := "E%sT".toList }

/-! ## Day numbers (specification side) -/

/-- Days from 1 January 1970 to 1 January of year `1970 + Y`. -/
def daysBeforeYear (Y : Nat) : Nat := 365 * Y + leapDaysBefore Y

/-- Day number (1 January 1970 is day 0) of the date with year `1970 + Y`,
`M` months before it in the year and `dd` days before it in the month. -/
def dayNumber (Y M dd : Nat) : Nat := daysBeforeYear Y + monthDaysBefore Y M + dd

/-- A rule whose trigger time is 1 h 30 min before midnight: `athr = -1`,
`atmin = 30`. -/
def beforeMidnight : rule_t :=
  { name := 4, month := 3, daytrig := .GIVEN_DAY, daynum := 10, athr := -1, atmin := 30,
    atref := .ATREF_U, offsethrs := 1, offsetmins := 0, fmtstr := "D".toList }

/-- A zone at +5 h 30 min without DST. -/
def kolkata : Catalog :=
  { mtimezone :=
      [ { zonename := "UTC".toList, zoneNameFromPrev := 0, gmtoffhr := 0, gmtoffmin := 0,
          rule := 0, formatstr := "UTC".toList },
        { zonename := "Asia/Kolkata".toList, zoneNameFromPrev := 0, gmtoffhr := 5,
          gmtoffmin := 30, rule := 0, formatstr := "IST".toList } ]
    link := []
    rules := []
    RULE_NONE := 0 }

/-- A zone whose DST delta is 0 h 30 min; the second rule is in wall time. -/
def lordHowe : Catalog :=
  { mtimezone :=
      [ { zonename := "UTC".toList, zoneNameFromPrev := 0, gmtoffhr := 0, gmtoffmin := 0,
          rule := 0, formatstr := "UTC".toList },
        { zonename := "Australia/Lord_Howe".toList, zoneNameFromPrev := 0, gmtoffhr := 10,
          gmtoffmin := 30, rule := 5, formatstr := "LH%sT".toList } ]
    link := []
    rules :=
      [ { name := 5, month := 4, daytrig := .SUN_GTEQ, daynum := 1, athr := 2, atmin := 0,
          atref := .ATREF_U, offsethrs := 0, offsetmins := 30, fmtstr := "D".toList },
        { name := 5, month := 10, daytrig := .SUN_GTEQ, daynum := 1, athr := 2, atmin := 0,
          atref := .ATREF_W, offsethrs := 0, offsetmins := 0, fmtstr := "S".toList } ]
    RULE_NONE := 0 }

/-- The state of the zone "America/New_York" of `usEastern` with the cache
solved for 2024. -/
def eastern2024 : State :=
  { timezoneNum := 1
    utcOffsetSecs := -18000
    useDSTRule := true
    dstYear := 2024
    dstChangeAtUTC := (889254, 280854)
    dstOffsetSecs := (3600, 0)
    timezoneStr := "E%sT".toList
    dstString := ("D".toList, "S".toList) }

/-- Invariant of the active state: the selected entry `z` exists and gave the
base offset; a zone with a rule name and a solvable rule group has
`useDSTRule` set; and when `useDSTRule` is set and the cache year is valid,
the cached data are the solver's for that year. -/
def StateOK (cat : Catalog) (s : State) : Prop :=
  ∃ z, cat.mtimezone[s.timezoneNum]? = some z ∧ s.utcOffsetSecs = gmtoffsecs z
    ∧ (z.rule ≠ cat.RULE_NONE → (∃ r0 r1, ruleLoop z.rule cat.rules [] = [r0, r1]) →
        s.useDSTRule = true)
    ∧ (s.useDSTRule = true → s.dstYear ≠ 0 →
        ∃ r0 r1, ruleLoop z.rule cat.rules [] = [r0, r1]
          ∧ s.dstChangeAtUTC
            = (changeAtUTC s.utcOffsetSecs s.dstYear r0 r1,
               changeAtUTC s.utcOffsetSecs s.dstYear r1 r0)
          ∧ s.dstOffsetSecs = (dstoffsecs r0, dstoffsecs r1)
          ∧ s.dstString = (strlcpy 4 r0.fmtstr, strlcpy 4 r1.fmtstr))

/-! ## Lemmas on the solver and on `SetTZ` -/

theorem ruleLoop_acc (name : Nat) (rules acc : List rule_t) (h : acc.length ≤ 2) :
    ruleLoop name rules acc = (acc ++ rules.filter (fun r => decide (r.name = name))).take 2 := by
  induction rules generalizing acc with
  | nil => simp [ruleLoop, List.take_of_length_le h]
  | cons r rs ih =>
    unfold ruleLoop
    by_cases hlt : acc.length < 2
    · by_cases hn : r.name = name
      · have hl : (acc ++ [r]).length ≤ 2 := by simp; omega
        simp [hlt, hn, ih _ hl, List.filter_cons]
      · simp [hlt, hn, ih _ h, List.filter_cons]
    · have he : acc.length = 2 := by omega
      simp [hlt, List.take_append_of_le_length (le_of_eq he.symm), List.take_of_length_le h]

theorem ruleLoop_eq (name : Nat) (rules : List rule_t) :
    ruleLoop name rules [] = (rules.filter (fun r => decide (r.name = name))).take 2 := by
  simpa using ruleLoop_acc name rules [] (by simp)

theorem gmtime_year_ge (u : Int) : 70 ≤ (gmtime u).tm_year := by
  simp [gmtime]

/-- The state `SetTZ` leaves when the selected entry is `z`. -/
theorem SetTZ_of_entry (cat : Catalog) (s : State) (name : List Char) (z : timezone_t)
    (hz : cat.mtimezone[SetTZ_timezoneNum cat name]? = some z) :
    SetTZ cat s name = some
      { s with
        timezoneNum := SetTZ_timezoneNum cat name
        utcOffsetSecs := gmtoffsecs z
        timezoneStr := strlcpy 16 z.formatstr
        useDSTRule := !decide (z.rule = cat.RULE_NONE)
        dstYear := if z.rule = cat.RULE_NONE then s.dstYear else 0 } := by
  unfold SetTZ
  simp only [hz]
  by_cases hr : z.rule = cat.RULE_NONE <;> simp [hr]

/-- The state the solver leaves for a rule pair `r0`, `r1`. -/
theorem UpdateDSTInfo_pair (cat : Catalog) (s : State) (u : Int) (z : timezone_t)
    (r0 r1 : rule_t) (hz : cat.mtimezone[s.timezoneNum]? = some z)
    (hp : cat.rules.filter (fun r => decide (r.name = z.rule)) = [r0, r1]) :
    UpdateDSTInfo cat s u = some
      { s with
        dstString := (strlcpy 4 r0.fmtstr, strlcpy 4 r1.fmtstr)
        dstYear := (1900 + (gmtime u).tm_year) % 65536
        dstChangeAtUTC :=
          (changeAtUTC s.utcOffsetSecs (1900 + (gmtime u).tm_year) r0 r1,
           changeAtUTC s.utcOffsetSecs (1900 + (gmtime u).tm_year) r1 r0)
        dstOffsetSecs := (dstoffsecs r0, dstoffsecs r1) } := by
  unfold UpdateDSTInfo
  simp [hz, ruleLoop_eq, hp]

/-- With fewer than two matching rules the solver only clears `useDSTRule`. -/
theorem UpdateDSTInfo_short (cat : Catalog) (s : State) (u : Int) (z : timezone_t)
    (hz : cat.mtimezone[s.timezoneNum]? = some z)
    (hp : (cat.rules.filter (fun r => decide (r.name = z.rule))).length < 2) :
    UpdateDSTInfo cat s u = some { s with useDSTRule := false } := by
  unfold UpdateDSTInfo
  simp only [hz, ruleLoop_eq]
  generalize cat.rules.filter (fun r => decide (r.name = z.rule)) = l at hp
  match l, hp with
  | [], _ => rfl
  | [_], _ => rfl
  | _ :: _ :: _, h => exact absurd h (by simp)

theorem breakYear_le (fuel year days time : Nat) :
    (breakYear fuel year days time).1 ≤ year + fuel := by
  induction fuel generalizing year days with
  | zero => simp [breakYear]
  | succ n ih =>
    unfold breakYear
    split
    · have := ih (year + 1) (days + yearDays year)
      omega
    · simp

theorem gmtime_year_le (u : Int) : (gmtime u).tm_year ≤ 326 := by
  have := breakYear_le 256 0 0 ((u % 4294967296).toNat / 60 / 60 / 24)
  simp only [gmtime, breakTime]
  omega

theorem LocalTime_of_CacheOK (cat : Catalog) (z : timezone_t) (r0 r1 : rule_t) (s : State)
    (u : Int) (hz : cat.mtimezone[s.timezoneNum]? = some z)
    (hp : cat.rules.filter (fun r => decide (r.name = z.rule)) = [r0, r1])
    (hc : CacheOK s.utcOffsetSecs r0 r1 s.timezoneNum s) :
    ∃ s1, LocalTime cat s u = some (s1, localValue s.utcOffsetSecs r0 r1 u)
      ∧ UpdateDSTInfo cat s u = some s1
      ∧ s1.timezoneNum = s.timezoneNum ∧ s1.utcOffsetSecs = s.utcOffsetSecs
      ∧ s1.dstYear = 1900 + (gmtime u).tm_year
      ∧ s1.dstChangeAtUTC = (changeAtUTC s.utcOffsetSecs (1900 + (gmtime u).tm_year) r0 r1,
          changeAtUTC s.utcOffsetSecs (1900 + (gmtime u).tm_year) r1 r0)
      ∧ s1.dstOffsetSecs = (dstoffsecs r0, dstoffsecs r1)
      ∧ CacheOK s.utcOffsetSecs r0 r1 s.timezoneNum s1 := by
  obtain ⟨-, -, hd, hcache⟩ := hc
  have hle := gmtime_year_le u
  have hge := gmtime_year_ge u
  have hmod : (1900 + (gmtime u).tm_year) % 65536 = 1900 + (gmtime u).tm_year := by omega
  by_cases hy : s.dstYear = (gmtime u).tm_year + 1900
  · have hy' : s.dstYear = 1900 + (gmtime u).tm_year := by omega
    have hne : s.dstYear ≠ 0 := by omega
    obtain ⟨h1, h2, h3⟩ := hcache.resolve_left hne
    refine ⟨s, ?_, ?_, rfl, rfl, hy', ?_, h2, ⟨rfl, rfl, hd, Or.inr ⟨h1, h2, h3⟩⟩⟩
    · unfold LocalTime localValue
      simp only [hy, hd, ne_eq, not_true_eq_false, false_and, if_false]
      rw [h1, h2, hy']
      by_cases hw : inWindow s.utcOffsetSecs r0 r1 u
      · simp [hw, hw.1, hw.2]
      · have hw2 := hw
        unfold inWindow at hw2
        simp [hw, hw2]
    · rw [UpdateDSTInfo_pair cat s u z r0 r1 hz hp, hmod, ← hy', ← h1, ← h2, ← h3]
    · rw [h1, hy']
  · refine ⟨{ s with
        dstString := (strlcpy 4 r0.fmtstr, strlcpy 4 r1.fmtstr)
        dstYear := (1900 + (gmtime u).tm_year) % 65536
        dstChangeAtUTC :=
          (changeAtUTC s.utcOffsetSecs (1900 + (gmtime u).tm_year) r0 r1,
           changeAtUTC s.utcOffsetSecs (1900 + (gmtime u).tm_year) r1 r0)
        dstOffsetSecs := (dstoffsecs r0, dstoffsecs r1) },
      ?_, UpdateDSTInfo_pair cat s u z r0 r1 hz hp, rfl, rfl, hmod, rfl, rfl,
      ⟨rfl, rfl, hd, Or.inr ⟨?_, rfl, rfl⟩⟩⟩
    · unfold LocalTime localValue
      simp only [hy, hd, ne_eq, not_false_eq_true, and_self, if_true]
      rw [UpdateDSTInfo_pair cat s u z r0 r1 hz hp]
      by_cases hw : inWindow s.utcOffsetSecs r0 r1 u
      · simp [hw, hw.1, hw.2, hd]
      · have hw2 := hw
        unfold inWindow at hw2
        simp [hw, hw2, hd]
    · simp only [hmod]

theorem LocalTimes_of_CacheOK (cat : Catalog) (z : timezone_t) (r0 r1 : rule_t)
    (us : List Int) (s : State) (hz : cat.mtimezone[s.timezoneNum]? = some z)
    (hp : cat.rules.filter (fun r => decide (r.name = z.rule)) = [r0, r1])
    (hc : CacheOK s.utcOffsetSecs r0 r1 s.timezoneNum s) :
    ∃ s1, LocalTimes cat s us = some s1
      ∧ s1.timezoneNum = s.timezoneNum ∧ s1.utcOffsetSecs = s.utcOffsetSecs
      ∧ CacheOK s.utcOffsetSecs r0 r1 s.timezoneNum s1 := by
  induction us generalizing s with
  | nil => exact ⟨s, rfl, rfl, rfl, hc⟩
  | cons u us ih =>
    obtain ⟨s1, h1, -, hn, hb, -, -, -, hc1⟩ := LocalTime_of_CacheOK cat z r0 r1 s u hz hp hc
    have hz1 : cat.mtimezone[s1.timezoneNum]? = some z := by rw [hn]; exact hz
    rw [← hn, ← hb] at hc1
    obtain ⟨s2, h2, hn2, hb2, hc2⟩ := ih s1 hz1 hc1
    refine ⟨s2, ?_, by rw [hn2, hn], by rw [hb2, hb], ?_⟩
    · simp [LocalTimes, h1, h2]
    · rw [← hn, ← hb]; exact hc2

/-! ## The loop bounds are never the reason a loop stops -/

/-- For `daynum` up to 249 the loop of line 204 never wraps `tm_mday` and stops
on its own test, on the first value `mday + 7k` that reaches `daynum`. -/
theorem gteqLoop_exact (daynum fuel mday : Nat) (a : Int) (hn : daynum ≤ 249)
    (hm : mday ≤ 255) (hf : daynum ≤ mday + 7 * fuel) :
    daynum ≤ (gteqLoop daynum fuel mday a).1
      ∧ (gteqLoop daynum fuel mday a).1 < max (mday + 1) (daynum + 7)
      ∧ mday ≤ (gteqLoop daynum fuel mday a).1
      ∧ ((gteqLoop daynum fuel mday a).1 - mday) % 7 = 0
      ∧ (gteqLoop daynum fuel mday a).2
        = a + SECS_PER_DAY * (((gteqLoop daynum fuel mday a).1 - mday : Nat) : Int) := by
  induction fuel generalizing mday a with
  | zero =>
    simp only [gteqLoop]
    refine ⟨by omega, by omega, le_refl _, by simp, by simp⟩
  | succ n ih =>
    unfold gteqLoop
    by_cases hc : mday < daynum
    · have hmod : (mday + 7) % 256 = mday + 7 := by omega
      rw [if_pos hc, hmod]
      obtain ⟨i1, i2, i3, i4, i5⟩ := ih (mday + 7) (a + SECS_PER_DAY * 7) (by omega) (by omega)
      refine ⟨i1, by omega, by omega, by omega, ?_⟩
      rw [i5]
      have : (gteqLoop daynum n (mday + 7) (a + SECS_PER_DAY * 7)).1 - mday
          = ((gteqLoop daynum n (mday + 7) (a + SECS_PER_DAY * 7)).1 - (mday + 7)) + 7 := by
        omega
      rw [this]
      push_cast
      ring
    · rw [if_neg hc]
      refine ⟨by omega, by omega, le_refl _, by simp, by simp⟩

/-! ## C1: the US Eastern scenario -/

/-- C1 (evaluation at the failing input): for a zone with offset -5 h 0 min
whose rule pair is [month 3, Sunday on or after day 8, 02:00 standard time,
+1 h; month 11, Sunday on or after day 1, 02:00 wall time, 0 h], after `SetTZ`
on that zone `LocalTime(1710054000)` returns 1710036000, the standard offset,
where the scenario expects 1710039600, and `LocalTime(1710053999)` returns
1710035999. The instants solved for 2024 are 889254 and 280854, both in
January 1970, because `mktime` returns no calendar instant. -/
theorem C1_us_eastern_standard_offset (cat : Catalog) (s : State) (name : List Char)
    (z : timezone_t) (r0 r1 : rule_t)
    (hz : cat.mtimezone[SetTZ_timezoneNum cat name]? = some z)
    (hhr : z.gmtoffhr = -5) (hmin : z.gmtoffmin = 0) (hrule : z.rule ≠ cat.RULE_NONE)
    (hp : cat.rules.filter (fun r => decide (r.name = z.rule)) = [r0, r1])
    (h0 : r0.month = 3 ∧ r0.daytrig = .SUN_GTEQ ∧ r0.daynum = 8 ∧ r0.athr = 2 ∧ r0.atmin = 0
      ∧ r0.atref = .ATREF_S ∧ r0.offsethrs = 1 ∧ r0.offsetmins = 0)
    (h1 : r1.month = 11 ∧ r1.daytrig = .SUN_GTEQ ∧ r1.daynum = 1 ∧ r1.athr = 2 ∧ r1.atmin = 0
      ∧ r1.atref = .ATREF_W ∧ r1.offsethrs = 0 ∧ r1.offsetmins = 0) :
    ((SetTZ cat s name).bind fun s1 =>
        (LocalTime cat s1 1710054000).map fun p => (p.1.dstChangeAtUTC, p.2))
        = some ((889254, 280854), 1710036000)
      ∧ ((SetTZ cat s name).bind fun s1 => (LocalTime cat s1 1710053999).map Prod.snd)
        = some 1710035999 := by
  obtain ⟨n0, m0, dt0, dn0, ah0, am0, ar0, oh0, om0, f0⟩ := r0
  obtain ⟨n1, m1, dt1, dn1, ah1, am1, ar1, oh1, om1, f1⟩ := r1
  simp only at h0 h1
  obtain ⟨rfl, rfl, rfl, rfl, rfl, rfl, rfl, rfl⟩ := h0
  obtain ⟨rfl, rfl, rfl, rfl, rfl, rfl, rfl, rfl⟩ := h1
  have c0 : changeAtUTC (-18000) 2024
      { name := n0, month := 3, daytrig := .SUN_GTEQ, daynum := 8, athr := 2, atmin := 0,
        atref := .ATREF_S, offsethrs := 1, offsetmins := 0, fmtstr := f0 }
      { name := n1, month := 11, daytrig := .SUN_GTEQ, daynum := 1, athr := 2, atmin := 0,
        atref := .ATREF_W, offsethrs := 0, offsetmins := 0, fmtstr := f1 } = 889254 := by
    simp only [changeAtUTC, resolveDay, secToFire, dstoffsecs]
    rfl
  have c1 : changeAtUTC (-18000) 2024
      { name := n1, month := 11, daytrig := .SUN_GTEQ, daynum := 1, athr := 2, atmin := 0,
        atref := .ATREF_W, offsethrs := 0, offsetmins := 0, fmtstr := f1 }
      { name := n0, month := 3, daytrig := .SUN_GTEQ, daynum := 8, athr := 2, atmin := 0,
        atref := .ATREF_S, offsethrs := 1, offsetmins := 0, fmtstr := f0 } = 280854 := by
    simp only [changeAtUTC, resolveDay, secToFire, dstoffsecs]
    rfl
  rw [SetTZ_of_entry cat s name z hz]
  refine ⟨?_, ?_⟩
  · have hy : (gmtime 1710054000).tm_year = 124 := by rfl
    simp only [Option.some_bind]
    unfold LocalTime
    simp only [hrule, hy, if_false]
    rw [UpdateDSTInfo_pair cat _ _ z _ _ hz hp]
    simp [hy, hhr, hmin, c0, c1, dstoffsecs, gmtoffsecs]
  · have hy : (gmtime 1710053999).tm_year = 124 := by rfl
    simp only [Option.some_bind]
    unfold LocalTime
    simp only [hrule, hy, if_false]
    rw [UpdateDSTInfo_pair cat _ _ z _ _ hz hp]
    simp [hy, hhr, hmin, c0, c1, dstoffsecs, gmtoffsecs]

/-- C1 (evaluation at the failing input) at the catalog `usEastern`, from the
program-start state. -/
theorem C1_us_eastern_standard_offset_witness :
    ((SetTZ usEastern State.init "America/New_York".toList).bind fun s1 =>
        (LocalTime usEastern s1 1710054000).map fun p => (p.1.dstChangeAtUTC, p.2))
        = some ((889254, 280854), 1710036000)
      ∧ ((SetTZ usEastern State.init "America/New_York".toList).bind fun s1 =>
        (LocalTime usEastern s1 1710053999).map Prod.snd) = some 1710035999 :=
  C1_us_eastern_standard_offset usEastern State.init "America/New_York".toList
    { zonename := "America/New_York".toList, zoneNameFromPrev := 0, gmtoffhr := -5,
      gmtoffmin := 0, rule := 1, formatstr := "E%sT".toList }
    { name := 1, month := 3, daytrig := .SUN_GTEQ, daynum := 8, athr := 2, atmin := 0,
      atref := .ATREF_S, offsethrs := 1, offsetmins := 0, fmtstr := "D".toList }
    { name := 1, month := 11, daytrig := .SUN_GTEQ, daynum := 1, athr := 2, atmin := 0,
      atref := .ATREF_W, offsethrs := 0, offsetmins := 0, fmtstr := "S".toList }
    (by decide) (by decide) (by decide) (by decide) (by decide)
    ⟨rfl, rfl, rfl, rfl, rfl, rfl, rfl, rfl⟩ ⟨rfl, rfl, rfl, rfl, rfl, rfl, rfl, rfl⟩


/-! ## C2: unknown names -/

/-- C2 (evaluation at the failing input): in the catalog `usEastern` the name
"Mars/Olympus" matches nothing, `FindTZName` returns -1, the value stored in
the `uint16_t` `timezoneNum` is 65535, the test `timezoneNum<0` does not
fire and `mtimezone[65535]` is read past the end of the table, whereas
`SetTZ("UTC")` selects entry 0. -/
theorem C2_unknown_name_no_fallback :
    FindTZName usEastern "Mars/Olympus".toList = -1
      ∧ SetTZ_timezoneNum usEastern "Mars/Olympus".toList = 65535
      ∧ SetTZ usEastern State.init "Mars/Olympus".toList = none
      ∧ SetTZ usEastern State.init "UTC".toList
          = some { State.init with timezoneNum := 0, timezoneStr := "UTC".toList } := by
  decide

/-! ## C3: zones without a DST rule -/

theorem LocalTime_fixed (cat : Catalog) (s : State) (u : Int) (h : s.useDSTRule = false) :
    LocalTime cat s u = some (s, u + s.utcOffsetSecs) := by
  unfold LocalTime
  simp [h]

/-- C3: for a zone whose entry has no DST rule, after `SetTZ` on that zone
(from any state) `LocalTime(u) - u` is the stored `utcOffsetSecs`, for every
`u`; the state is left as `SetTZ` made it. -/
theorem C3_no_rule_fixed_offset (cat : Catalog) (s : State) (name : List Char)
    (z : timezone_t) (u : Int)
    (hz : cat.mtimezone[SetTZ_timezoneNum cat name]? = some z)
    (hr : z.rule = cat.RULE_NONE) :
    ∃ s1 v, SetTZ cat s name = some s1 ∧ LocalTime cat s1 u = some (s1, v)
      ∧ v - u = s1.utcOffsetSecs := by
  refine ⟨_, _, SetTZ_of_entry cat s name z hz, LocalTime_fixed cat _ u ?_, ?_⟩
  · simp [hr]
  · simp

/-- C3 at the zone "Asia/Kolkata" of `kolkata`, from the state `eastern2024`
in which `useDSTRule` is set and a cache is filled. -/
theorem C3_no_rule_fixed_offset_witness :
    ∃ s1 v, SetTZ kolkata eastern2024 "Asia/Kolkata".toList = some s1
      ∧ LocalTime kolkata s1 1710054000 = some (s1, v)
      ∧ v - 1710054000 = s1.utcOffsetSecs :=
  C3_no_rule_fixed_offset kolkata eastern2024 "Asia/Kolkata".toList
    { zonename := "Asia/Kolkata".toList, zoneNameFromPrev := 0, gmtoffhr := 5,
      gmtoffmin := 30, rule := 0, formatstr := "IST".toList } 1710054000 (by decide) (by decide)

/-! ## C4: the window test uses the data of the year of the instant -/

theorem SetTZ_cacheOK (cat : Catalog) (s : State) (name : List Char) (z : timezone_t)
    (r0 r1 : rule_t) (hz : cat.mtimezone[SetTZ_timezoneNum cat name]? = some z)
    (hrule : z.rule ≠ cat.RULE_NONE) :
    ∃ s1, SetTZ cat s name = some s1 ∧ s1.timezoneNum = SetTZ_timezoneNum cat name
      ∧ CacheOK s1.utcOffsetSecs r0 r1 s1.timezoneNum s1 := by
  refine ⟨_, SetTZ_of_entry cat s name z hz, rfl, rfl, rfl, ?_, ?_⟩
  · simp [hrule]
  · left; simp [hrule]

/-- C4: for a zone with exactly two matching rules `r0`, `r1`, after `SetTZ` on
that zone and any run of earlier `LocalTime` calls, `LocalTime(u)` leaves the
state `s3` that the solver produces for `u` (its `dstYear` is the UTC year of
`u`, its transition instants and deltas are those of `r0`, `r1` for that
year) and returns `u + base + delta[0]` when `T0 <= u < T1` and
`u + base + delta[1]` otherwise. -/
theorem C4_window_of_year (cat : Catalog) (s : State) (name : List Char) (z : timezone_t)
    (r0 r1 : rule_t) (us : List Int) (u : Int)
    (hz : cat.mtimezone[SetTZ_timezoneNum cat name]? = some z)
    (hrule : z.rule ≠ cat.RULE_NONE)
    (hp : cat.rules.filter (fun r => decide (r.name = z.rule)) = [r0, r1]) :
    ∃ s1 s2 s3, SetTZ cat s name = some s1 ∧ LocalTimes cat s1 us = some s2
      ∧ UpdateDSTInfo cat s2 u = some s3
      ∧ s3.dstYear = 1900 + (gmtime u).tm_year
      ∧ s3.utcOffsetSecs = s1.utcOffsetSecs
      ∧ s3.dstChangeAtUTC = (changeAtUTC s1.utcOffsetSecs (1900 + (gmtime u).tm_year) r0 r1,
          changeAtUTC s1.utcOffsetSecs (1900 + (gmtime u).tm_year) r1 r0)
      ∧ s3.dstOffsetSecs = (dstoffsecs r0, dstoffsecs r1)
      ∧ LocalTime cat s2 u = some (s3,
          if s3.dstChangeAtUTC.1 ≤ u ∧ u < s3.dstChangeAtUTC.2 then
            u + s3.utcOffsetSecs + s3.dstOffsetSecs.1
          else u + s3.utcOffsetSecs + s3.dstOffsetSecs.2) := by
  obtain ⟨s1, h1, hn1, hc1⟩ := SetTZ_cacheOK cat s name z r0 r1 hz hrule
  have hz1 : cat.mtimezone[s1.timezoneNum]? = some z := by rw [hn1]; exact hz
  obtain ⟨s2, h2, hn2, hb2, hc2⟩ := LocalTimes_of_CacheOK cat z r0 r1 us s1 hz1 hp hc1
  have hz2 : cat.mtimezone[s2.timezoneNum]? = some z := by rw [hn2]; exact hz1
  rw [← hn2, ← hb2] at hc2
  obtain ⟨s3, h3, hu, -, hb3, hy3, hT, hD, -⟩ := LocalTime_of_CacheOK cat z r0 r1 s2 u hz2 hp hc2
  refine ⟨s1, s2, s3, h1, h2, hu, hy3, by rw [hb3, hb2], by rw [hT, hb2], hD, ?_⟩
  rw [h3, hT, hD, hb3]
  rfl

/-- C4 at the zone "America/New_York" of `usEastern`: a call in 2023 followed
by a call in 2024. -/
theorem C4_window_of_year_witness :
    ∃ s1 s2 s3, SetTZ usEastern State.init "America/New_York".toList = some s1
      ∧ LocalTimes usEastern s1 [1700000000] = some s2
      ∧ UpdateDSTInfo usEastern s2 1710054000 = some s3
      ∧ s3.dstYear = 1900 + (gmtime 1710054000).tm_year
      ∧ s3.utcOffsetSecs = s1.utcOffsetSecs
      ∧ s3.dstChangeAtUTC
        = (changeAtUTC s1.utcOffsetSecs (1900 + (gmtime 1710054000).tm_year)
            { name := 1, month := 3, daytrig := .SUN_GTEQ, daynum := 8, athr := 2, atmin := 0,
              atref := .ATREF_S, offsethrs := 1, offsetmins := 0, fmtstr := "D".toList }
            { name := 1, month := 11, daytrig := .SUN_GTEQ, daynum := 1, athr := 2, atmin := 0,
              atref := .ATREF_W, offsethrs := 0, offsetmins := 0, fmtstr := "S".toList },
          changeAtUTC s1.utcOffsetSecs (1900 + (gmtime 1710054000).tm_year)
            { name := 1, month := 11, daytrig := .SUN_GTEQ, daynum := 1, athr := 2, atmin := 0,
              atref := .ATREF_W, offsethrs := 0, offsetmins := 0, fmtstr := "S".toList }
            { name := 1, month := 3, daytrig := .SUN_GTEQ, daynum := 8, athr := 2, atmin := 0,
              atref := .ATREF_S, offsethrs := 1, offsetmins := 0, fmtstr := "D".toList })
      ∧ s3.dstOffsetSecs = (3600, 0)
      ∧ LocalTime usEastern s2 1710054000 = some (s3,
          if s3.dstChangeAtUTC.1 ≤ 1710054000 ∧ 1710054000 < s3.dstChangeAtUTC.2 then
            1710054000 + s3.utcOffsetSecs + s3.dstOffsetSecs.1
          else 1710054000 + s3.utcOffsetSecs + s3.dstOffsetSecs.2) :=
  C4_window_of_year usEastern State.init "America/New_York".toList
    { zonename := "America/New_York".toList, zoneNameFromPrev := 0, gmtoffhr := -5,
      gmtoffmin := 0, rule := 1, formatstr := "E%sT".toList }
    { name := 1, month := 3, daytrig := .SUN_GTEQ, daynum := 8, athr := 2, atmin := 0,
      atref := .ATREF_S, offsethrs := 1, offsetmins := 0, fmtstr := "D".toList }
    { name := 1, month := 11, daytrig := .SUN_GTEQ, daynum := 1, athr := 2, atmin := 0,
      atref := .ATREF_W, offsethrs := 0, offsetmins := 0, fmtstr := "S".toList }
    [1700000000] 1710054000 (by decide) (by decide) (by decide)


/-! ## C6: `SetTZ` twice -/

/-- C6: for every name and every starting state, `SetTZ(name)` called twice
leaves the state that one call leaves, so a following `LocalTime(u)` returns
the same value and state after either sequence. -/
theorem C6_SetTZ_twice (cat : Catalog) (s : State) (name : List Char) (u : Int) :
    ((SetTZ cat s name).bind fun s1 => SetTZ cat s1 name) = SetTZ cat s name
      ∧ ((SetTZ cat s name).bind fun s1 => (SetTZ cat s1 name).bind fun s2 => LocalTime cat s2 u)
        = (SetTZ cat s name).bind fun s1 => LocalTime cat s1 u := by
  have key : ∀ s1, SetTZ cat s name = some s1 → SetTZ cat s1 name = some s1 := by
    intro s1 h1
    cases hz : cat.mtimezone[SetTZ_timezoneNum cat name]? with
    | none => simp [SetTZ, hz] at h1
    | some z =>
      rw [SetTZ_of_entry cat s name z hz] at h1
      rw [SetTZ_of_entry cat s1 name z hz, ← Option.some.inj h1]
      by_cases hr : z.rule = cat.RULE_NONE <;> simp [hr]
  cases h : SetTZ cat s name with
  | none => simp
  | some s1 => simp [key s1 h]


/-! ## C7: order of the two transition instants -/

/-- C7 (counterexample): in the catalog `sydney`, whose pair lists the rule of
October before the rule of April, the solver run for 2024 stores
`dstChangeAtUTC[0] = 230454` and `dstChangeAtUTC[1] = 230454`, so
`dstChangeAtUTC[0] < dstChangeAtUTC[1]` fails. In the catalog `usEastern`,
which lists the rule of March first, it stores 889254 and 280854: the instant
of the rule listed second is the earlier one. -/
theorem C7_second_rule_earlier :
    ((SetTZ sydney State.init "Australia/Sydney".toList).bind fun s1 =>
      (UpdateDSTInfo sydney s1 1710054000).map fun s2 => (s2.useDSTRule, s2.dstChangeAtUTC))
        = some (true, (230454, 230454))
      ∧ ¬ ((230454 : Int) < 230454)
      ∧ ((SetTZ usEastern State.init "America/New_York".toList).bind fun s1 =>
        (UpdateDSTInfo usEastern s1 1710054000).map fun s2 => (s2.useDSTRule, s2.dstChangeAtUTC))
        = some (true, (889254, 280854))
      ∧ ¬ ((889254 : Int) < 280854) := by
  decide

/-- C7 (amended): `dstChangeAtUTC[0]` is the instant of the rule listed first
and `dstChangeAtUTC[1]` that of the rule listed second. For two catalogs with
the same zone table whose matching rules are `[r0, r1]` and `[r1, r0]`, the
solver stores the two instants (and the two deltas) in exchanged places, so
`dstChangeAtUTC[0] < dstChangeAtUTC[1]` holds in one catalog exactly when
`dstChangeAtUTC[1] < dstChangeAtUTC[0]` holds in the other. -/
theorem C7_order_follows_catalog (cat cat2 : Catalog) (s : State) (u : Int) (z : timezone_t)
    (r0 r1 : rule_t) (hz : cat.mtimezone[s.timezoneNum]? = some z)
    (hzones : cat2.mtimezone = cat.mtimezone)
    (hp : cat.rules.filter (fun r => decide (r.name = z.rule)) = [r0, r1])
    (hp2 : cat2.rules.filter (fun r => decide (r.name = z.rule)) = [r1, r0]) :
    ∃ a b, UpdateDSTInfo cat s u = some a ∧ UpdateDSTInfo cat2 s u = some b
      ∧ a.dstChangeAtUTC.1 = changeAtUTC s.utcOffsetSecs (1900 + (gmtime u).tm_year) r0 r1
      ∧ a.dstChangeAtUTC.2 = changeAtUTC s.utcOffsetSecs (1900 + (gmtime u).tm_year) r1 r0
      ∧ b.dstChangeAtUTC = (a.dstChangeAtUTC.2, a.dstChangeAtUTC.1)
      ∧ b.dstOffsetSecs = (a.dstOffsetSecs.2, a.dstOffsetSecs.1)
      ∧ (a.dstChangeAtUTC.1 < a.dstChangeAtUTC.2 ↔ b.dstChangeAtUTC.2 < b.dstChangeAtUTC.1) := by
  have hz2 : cat2.mtimezone[s.timezoneNum]? = some z := by rw [hzones]; exact hz
  refine ⟨_, _, UpdateDSTInfo_pair cat s u z r0 r1 hz hp,
    UpdateDSTInfo_pair cat2 s u z r1 r0 hz2 hp2, rfl, rfl, rfl, rfl, Iff.rfl⟩

/-- C7 (amended) at `usEastern` and `usEasternSwapped`. -/
theorem C7_order_follows_catalog_witness :
    ∃ a b, UpdateDSTInfo usEastern { State.init with timezoneNum := 1 } 1710054000 = some a
      ∧ UpdateDSTInfo usEasternSwapped { State.init with timezoneNum := 1 } 1710054000 = some b
      ∧ a.dstChangeAtUTC.1 = changeAtUTC 0 (1900 + (gmtime 1710054000).tm_year)
          { name := 1, month := 3, daytrig := .SUN_GTEQ, daynum := 8, athr := 2, atmin := 0,
            atref := .ATREF_S, offsethrs := 1, offsetmins := 0, fmtstr := "D".toList }
          { name := 1, month := 11, daytrig := .SUN_GTEQ, daynum := 1, athr := 2, atmin := 0,
            atref := .ATREF_W, offsethrs := 0, offsetmins := 0, fmtstr := "S".toList }
      ∧ a.dstChangeAtUTC.2 = changeAtUTC 0 (1900 + (gmtime 1710054000).tm_year)
          { name := 1, month := 11, daytrig := .SUN_GTEQ, daynum := 1, athr := 2, atmin := 0,
            atref := .ATREF_W, offsethrs := 0, offsetmins := 0, fmtstr := "S".toList }
          { name := 1, month := 3, daytrig := .SUN_GTEQ, daynum := 8, athr := 2, atmin := 0,
            atref := .ATREF_S, offsethrs := 1, offsetmins := 0, fmtstr := "D".toList }
      ∧ b.dstChangeAtUTC = (a.dstChangeAtUTC.2, a.dstChangeAtUTC.1)
      ∧ b.dstOffsetSecs = (a.dstOffsetSecs.2, a.dstOffsetSecs.1)
      ∧ (a.dstChangeAtUTC.1 < a.dstChangeAtUTC.2 ↔ b.dstChangeAtUTC.2 < b.dstChangeAtUTC.1) :=
  C7_order_follows_catalog usEastern usEasternSwapped { State.init with timezoneNum := 1 }
    1710054000
    { zonename := "America/New_York".toList, zoneNameFromPrev := 0, gmtoffhr := -5,
      gmtoffmin := 0, rule := 1, formatstr := "E%sT".toList }
    { name := 1, month := 3, daytrig := .SUN_GTEQ, daynum := 8, athr := 2, atmin := 0,
      atref := .ATREF_S, offsethrs := 1, offsetmins := 0, fmtstr := "D".toList }
    { name := 1, month := 11, daytrig := .SUN_GTEQ, daynum := 1, athr := 2, atmin := 0,
      atref := .ATREF_W, offsethrs := 0, offsetmins := 0, fmtstr := "S".toList }
    (by decide) (by decide) (by decide) (by decide)

/-! ## C8: rule groups that are not pairs -/

/-- C8 (counterexample): in the catalog `threeRules` three rules match the
zone's rule name; the solver keeps `useDSTRule` true and writes the transition
data of the first two (instants, deltas, abbreviations, year). -/
theorem C8_three_rules_solved :
    (threeRules.rules.filter fun r => decide (r.name = 1)).length = 3
      ∧ ((SetTZ threeRules State.init "America/New_York".toList).bind fun s1 =>
          (UpdateDSTInfo threeRules s1 1710054000).map fun s2 =>
            (s2.useDSTRule, s2.dstChangeAtUTC, s2.dstOffsetSecs, s2.dstString, s2.dstYear))
        = some (true, (889254, 280854), (3600, 0), ("D".toList, "S".toList), 2024)
      ∧ State.init.dstChangeAtUTC = (0, 0) := by
  exact ⟨by decide, rfl, by decide⟩

/-- C8 (amended): when fewer than two rules match the active zone's rule name
(zero or one), the solver sets `useDSTRule` to false and leaves every other
field as it was; when two or more match, it solves with the first two in
table order. -/
theorem C8_fewer_than_two_rules (cat : Catalog) (s : State) (u : Int) (z : timezone_t)
    (hz : cat.mtimezone[s.timezoneNum]? = some z) :
    ((cat.rules.filter fun r => decide (r.name = z.rule)).length < 2 →
        UpdateDSTInfo cat s u = some { s with useDSTRule := false })
      ∧ (∀ r0 r1 rest, (cat.rules.filter fun r => decide (r.name = z.rule)) = r0 :: r1 :: rest →
        UpdateDSTInfo cat s u = some
          { s with
            dstString := (strlcpy 4 r0.fmtstr, strlcpy 4 r1.fmtstr)
            dstYear := 1900 + (gmtime u).tm_year
            dstChangeAtUTC :=
              (changeAtUTC s.utcOffsetSecs (1900 + (gmtime u).tm_year) r0 r1,
               changeAtUTC s.utcOffsetSecs (1900 + (gmtime u).tm_year) r1 r0)
            dstOffsetSecs := (dstoffsecs r0, dstoffsecs r1) }) := by
  refine ⟨UpdateDSTInfo_short cat s u z hz, ?_⟩
  intro r0 r1 rest hl
  have hle := gmtime_year_le u
  have hmod : (1900 + (gmtime u).tm_year) % 65536 = 1900 + (gmtime u).tm_year := by omega
  unfold UpdateDSTInfo
  simp [hz, ruleLoop_eq, hl, hmod]

/-- C8 (amended) at the catalog `oneRule`, where one rule matches. -/
theorem C8_fewer_than_two_rules_witness :
    UpdateDSTInfo oneRule { State.init with timezoneNum := 1, useDSTRule := true } 1710054000
      = some { State.init with timezoneNum := 1, useDSTRule := false } :=
  (C8_fewer_than_two_rules oneRule { State.init with timezoneNum := 1, useDSTRule := true }
    1710054000
    { zonename := "America/New_York".toList, zoneNameFromPrev := 0, gmtoffhr := -5,
      gmtoffmin := 0, rule := 1, formatstr := "E%sT".toList } (by decide)).1 (by decide)

/-! ## C9: a single matching rule -/

/-- C9: for a zone whose rule name matches exactly one rule, after `SetTZ` on
that zone the first call `LocalTime(u)` leaves `useDSTRule` false and returns
`u + utcOffsetSecs`; every later call `LocalTime(u2)` returns
`u2 + utcOffsetSecs` and leaves the state as it is. -/
theorem C9_single_rule_fixed_offset (cat : Catalog) (s : State) (name : List Char)
    (z : timezone_t) (r : rule_t) (u u2 : Int)
    (hz : cat.mtimezone[SetTZ_timezoneNum cat name]? = some z)
    (hone : cat.rules.filter (fun r => decide (r.name = z.rule)) = [r]) :
    ∃ s1 s2, SetTZ cat s name = some s1
      ∧ LocalTime cat s1 u = some (s2, u + gmtoffsecs z)
      ∧ s2.useDSTRule = false
      ∧ s2.utcOffsetSecs = gmtoffsecs z
      ∧ LocalTime cat s2 u2 = some (s2, u2 + gmtoffsecs z) := by
  have hge := gmtime_year_ge u
  have hs1 := SetTZ_of_entry cat s name z hz
  by_cases hr : z.rule = cat.RULE_NONE
  · refine ⟨_, _, hs1, LocalTime_fixed cat _ u (by simp [hr]), by simp [hr], rfl, ?_⟩
    exact LocalTime_fixed cat _ u2 (by simp [hr])
  · refine ⟨_, { s with
        timezoneNum := SetTZ_timezoneNum cat name
        utcOffsetSecs := gmtoffsecs z
        timezoneStr := strlcpy 16 z.formatstr
        useDSTRule := false
        dstYear := 0 }, hs1, ?_, rfl, rfl, LocalTime_fixed cat _ u2 rfl⟩
    have hshort : (cat.rules.filter fun r => decide (r.name = z.rule)).length < 2 := by
      rw [hone]; simp
    unfold LocalTime
    have hne : (0 : Nat) ≠ (gmtime u).tm_year + 1900 := by omega
    simp only [hr, if_false, decide_False, Bool.not_false, hne, ne_eq, not_false_eq_true,
      and_self, if_true]
    rw [UpdateDSTInfo_short cat _ u z hz hshort]
    rfl

/-- C9 at the catalog `oneRule`. -/
theorem C9_single_rule_fixed_offset_witness :
    ∃ s1 s2, SetTZ oneRule State.init "America/New_York".toList = some s1
      ∧ LocalTime oneRule s1 1710054000 = some (s2, 1710054000 + -18000)
      ∧ s2.useDSTRule = false
      ∧ s2.utcOffsetSecs = -18000
      ∧ LocalTime oneRule s2 1720000000 = some (s2, 1720000000 + -18000) :=
  C9_single_rule_fixed_offset oneRule State.init "America/New_York".toList
    { zonename := "America/New_York".toList, zoneNameFromPrev := 0, gmtoffhr := -5,
      gmtoffmin := 0, rule := 1, formatstr := "E%sT".toList }
    { name := 1, month := 3, daytrig := .SUN_GTEQ, daynum := 8, athr := 2, atmin := 0,
      atref := .ATREF_S, offsethrs := 1, offsetmins := 0, fmtstr := "D".toList }
    1710054000 1720000000 (by decide) (by decide)


/-! ## C10: `FindTZName` -/

theorem strlcpyAt_eq_qualify (prev : List Char) (off : Nat) (leaf : List Char)
    (h1 : off ≤ prev.length) (h2 : (qualify prev off leaf).length ≤ 63) :
    strlcpyAt 64 prev off leaf = qualify prev off leaf := by
  unfold strlcpyAt qualify
  unfold qualify at h2
  simp only [List.length_append, List.length_take, Nat.min_eq_left h1] at h2
  have h3 : leaf.length ≤ 64 - off - 1 := by omega
  simp [h1, List.take_of_length_le h3]

theorem firstIndex_lt_length (q : List Char) (names : List (List Char)) (h : q ∈ names) :
    firstIndex q names < names.length := by
  induction names with
  | nil => simp at h
  | cons n ns ih =>
    unfold firstIndex
    by_cases hq : n = q
    · simp [hq]
    · have : q ∈ ns := by
        rcases List.mem_cons.1 h with h1 | h1
        · exact absurd h1.symm hq
        · exact h1
      have := ih this
      simp [hq]
      omega

theorem tzLoop_spec (q : List Char) (zs : List timezone_t) (i : Nat) (buff : List Char)
    (hfit : namesFit buff (zs.map fun z => (z.zoneNameFromPrev, z.zonename)) = true) :
    tzLoop q zs i buff =
      if q ∈ qualifiedNames buff (zs.map fun z => (z.zoneNameFromPrev, z.zonename)) then
        .inl (i + firstIndex q (qualifiedNames buff
          (zs.map fun z => (z.zoneNameFromPrev, z.zonename))))
      else
        .inr ((qualifiedNames buff
          (zs.map fun z => (z.zoneNameFromPrev, z.zonename))).getLastD buff) := by
  induction zs generalizing i buff with
  | nil => simp [tzLoop, qualifiedNames]
  | cons z zs ih =>
    simp only [List.map_cons, namesFit, Bool.and_eq_true, decide_eq_true_eq] at hfit
    obtain ⟨⟨h1, h2⟩, h3⟩ := hfit
    simp only [tzLoop, List.map_cons, qualifiedNames, strlcpyAt_eq_qualify _ _ _ h1 h2]
    by_cases hq : qualify buff z.zoneNameFromPrev z.zonename = q
    · subst hq
      simp [firstIndex]
    · have hq2 : ¬ q = qualify buff z.zoneNameFromPrev z.zonename := fun h => hq h.symm
      rw [if_neg hq, ih (i + 1) _ h3]
      simp only [List.mem_cons, hq2, false_or, firstIndex, if_neg hq]
      split
      · congr 1; omega
      · congr 1
        cases hn : qualifiedNames (qualify buff z.zoneNameFromPrev z.zonename)
            (zs.map fun z => (z.zoneNameFromPrev, z.zonename)) with
        | nil => rfl
        | cons a l => rfl

theorem linkLoop_spec (q : List Char) (ls : List link_t) (buff : List Char)
    (hfit : namesFit buff (ls.map fun l => (l.zoneNameFromPrev, l.zonename)) = true) :
    linkLoop q ls buff =
      if q ∈ qualifiedNames buff (ls.map fun l => (l.zoneNameFromPrev, l.zonename)) then
        (ls[firstIndex q (qualifiedNames buff
          (ls.map fun l => (l.zoneNameFromPrev, l.zonename)))]?).map (·.timezone)
      else none := by
  induction ls generalizing buff with
  | nil => simp [linkLoop, qualifiedNames]
  | cons l ls ih =>
    simp only [List.map_cons, namesFit, Bool.and_eq_true, decide_eq_true_eq] at hfit
    obtain ⟨⟨h1, h2⟩, h3⟩ := hfit
    simp only [linkLoop, List.map_cons, qualifiedNames, strlcpyAt_eq_qualify _ _ _ h1 h2]
    by_cases hq : qualify buff l.zoneNameFromPrev l.zonename = q
    · subst hq
      simp [firstIndex]
    · have hq2 : ¬ q = qualify buff l.zoneNameFromPrev l.zonename := fun h => hq h.symm
      rw [if_neg hq, ih _ h3]
      simp [hq2, firstIndex, hq]

theorem qualifiedNames_length (prev : List Char) (es : List (Nat × List Char)) :
    (qualifiedNames prev es).length = es.length := by
  induction es generalizing prev with
  | nil => rfl
  | cons e es ih => simp [qualifiedNames, ih]

/-- C10: in a catalog whose names fit the lookup buffer, for every query `q`:
if `q` is the fully qualified name of a canonical entry, `FindTZName` returns
the index of the first such entry (whether or not an alias carries the name
too); otherwise, if `q` is the fully qualified name of an alias, it returns
the canonical index stored in the first such alias; and it returns -1
exactly when `q` is the name of no canonical entry and of no alias. -/
theorem C10_FindTZName_lookup (cat : Catalog) (q : List Char) (hfit : cat.namesFit = true) :
    (q ∈ cat.zoneNames → FindTZName cat q = (firstIndex q cat.zoneNames : Int))
      ∧ (q ∉ cat.zoneNames → q ∈ cat.linkNames →
          ∃ l, cat.link[firstIndex q cat.linkNames]? = some l
            ∧ FindTZName cat q = (l.timezone : Int))
      ∧ (FindTZName cat q = -1 ↔ q ∉ cat.zoneNames ∧ q ∉ cat.linkNames) := by
  simp only [Catalog.namesFit, Bool.and_eq_true] at hfit
  obtain ⟨hz, hl⟩ := hfit
  have htz : tzLoop q cat.mtimezone 0 [] =
      if q ∈ cat.zoneNames then .inl (0 + firstIndex q cat.zoneNames)
      else .inr (cat.zoneNames.getLastD []) := tzLoop_spec q cat.mtimezone 0 [] hz
  have hlk : linkLoop q cat.link (cat.zoneNames.getLastD []) =
      if q ∈ cat.linkNames then (cat.link[firstIndex q cat.linkNames]?).map (·.timezone)
      else none := linkLoop_spec q cat.link (cat.zoneNames.getLastD []) hl
  have hidx : q ∈ cat.linkNames → ∃ l, cat.link[firstIndex q cat.linkNames]? = some l := by
    intro hm
    have h1 := firstIndex_lt_length q _ hm
    have h2 : cat.linkNames.length = cat.link.length := by
      simp [Catalog.linkNames, qualifiedNames_length]
    cases hg : cat.link[firstIndex q cat.linkNames]? with
    | some l => exact ⟨l, rfl⟩
    | none =>
      have := List.getElem?_eq_none_iff.1 hg
      omega
  by_cases hm : q ∈ cat.zoneNames
  · have hF : FindTZName cat q = (firstIndex q cat.zoneNames : Int) := by
      unfold FindTZName
      rw [htz, if_pos hm]
      simp
    refine ⟨fun _ => hF, fun h => absurd hm h, ?_⟩
    rw [hF]
    constructor
    · intro h; omega
    · intro h; exact absurd hm h.1
  · by_cases hk : q ∈ cat.linkNames
    · obtain ⟨l, hl2⟩ := hidx hk
      have hF : FindTZName cat q = (l.timezone : Int) := by
        unfold FindTZName
        rw [htz, if_neg hm]
        simp only
        rw [hlk, if_pos hk, hl2]
        rfl
      refine ⟨fun h => absurd h hm, fun _ _ => ⟨l, hl2, hF⟩, ?_⟩
      rw [hF]
      constructor
      · intro h; omega
      · intro h; exact absurd hk h.2
    · have hF : FindTZName cat q = -1 := by
        unfold FindTZName
        rw [htz, if_neg hm]
        simp only
        rw [hlk, if_neg hk]
      exact ⟨fun h => absurd h hm, fun _ h => absurd h hk, fun _ => ⟨hm, hk⟩, fun _ => hF⟩

/-- C10 at the catalog `withLinks` and the name "UTC", which is both the third
canonical entry and the third alias. -/
theorem C10_FindTZName_lookup_witness :
    ("UTC".toList ∈ withLinks.zoneNames →
        FindTZName withLinks "UTC".toList = (firstIndex "UTC".toList withLinks.zoneNames : Int))
      ∧ ("UTC".toList ∉ withLinks.zoneNames → "UTC".toList ∈ withLinks.linkNames →
          ∃ l, withLinks.link[firstIndex "UTC".toList withLinks.linkNames]? = some l
            ∧ FindTZName withLinks "UTC".toList = (l.timezone : Int))
      ∧ (FindTZName withLinks "UTC".toList = -1 ↔
          "UTC".toList ∉ withLinks.zoneNames ∧ "UTC".toList ∉ withLinks.linkNames) :=
  C10_FindTZName_lookup withLinks "UTC".toList (by decide)

/-! ## C11: `GetNextTZ` -/

theorem strlcpyAt_eq_qualify_of_le (size : Nat) (prev : List Char) (off : Nat)
    (leaf : List Char) (hs : 64 ≤ size) (h1 : off ≤ prev.length)
    (h2 : (qualify prev off leaf).length ≤ 63) :
    strlcpyAt size prev off leaf = qualify prev off leaf := by
  unfold strlcpyAt qualify
  unfold qualify at h2
  simp only [List.length_append, List.length_take, Nat.min_eq_left h1] at h2
  have h3 : leaf.length ≤ size - off - 1 := by omega
  simp [h1, List.take_of_length_le h3]

theorem enumerate_end (cat : Catalog) (bl n m : Nat) (c : Cursor) (buff : List Char)
    (hz : ¬ c.idxTZ < cat.mtimezone.length) (hl : ¬ c.idxLink < cat.link.length)
    (hm : n ≤ m) :
    enumerate cat bl n c buff = (List.replicate m none).take n := by
  induction n generalizing m with
  | zero => simp [enumerate]
  | succ n ih =>
    obtain ⟨m, rfl⟩ : ∃ k, m = k + 1 := ⟨m - 1, by omega⟩
    have hg : GetNextTZ cat c false buff bl = (c, buff, none) := by
      simp [GetNextTZ, hz, hl]
    simp only [enumerate, hg, List.replicate_succ, List.take_succ_cons]
    rw [ih m (by omega)]

theorem enumerate_links (cat : Catalog) (bl : Nat) (hs : 64 ≤ bl)
    (hlen : cat.link.length ≤ 65535) (post pre : List link_t) (buff : List Char) (n m i : Nat)
    (hi : ¬ i < cat.mtimezone.length) (hsplit : cat.link = pre ++ post)
    (hfit : namesFit buff (post.map fun (l : link_t) => (l.zoneNameFromPrev, l.zonename)) = true)
    (hm : n ≤ m) :
    enumerate cat bl n { idxTZ := i, idxLink := pre.length } buff
      = ((qualifiedNames buff (post.map fun (l : link_t) => (l.zoneNameFromPrev, l.zonename))).map some
          ++ List.replicate m none).take n := by
  induction post generalizing pre buff n m with
  | nil =>
    have hl : ¬ pre.length < cat.link.length := by simp [hsplit]
    simpa [qualifiedNames] using enumerate_end cat bl n m _ buff hi hl hm
  | cons l post ih =>
    cases n with
    | zero => simp [enumerate]
    | succ n =>
      simp only [List.map_cons, namesFit, Bool.and_eq_true, decide_eq_true_eq] at hfit
      obtain ⟨⟨h1, h2⟩, h3⟩ := hfit
      have hlt : pre.length < cat.link.length := by simp [hsplit]
      have hget : cat.link[pre.length] = l := by
        have h0 : cat.link[pre.length]? = some l := by
          rw [hsplit, List.getElem?_append_right (le_refl _)]; simp
        obtain ⟨_, h⟩ := List.getElem?_eq_some.1 h0
        exact h
      have hmod : (pre.length + 1) % 65536 = (pre ++ [l]).length := by
        have : pre.length + 1 ≤ cat.link.length := hlt
        simp only [List.length_append, List.length_singleton]
        omega
      have hg : GetNextTZ cat { idxTZ := i, idxLink := pre.length } false buff bl
          = ({ idxTZ := i, idxLink := (pre ++ [l]).length },
              qualify buff l.zoneNameFromPrev l.zonename,
              some (qualify buff l.zoneNameFromPrev l.zonename)) := by
        simp only [GetNextTZ, hi, hlt, hget, hmod, dite_false, dite_true, Bool.false_eq_true,
          if_false, strlcpyAt_eq_qualify_of_le bl _ _ _ hs h1 h2]
      simp only [enumerate, hg, List.map_cons, qualifiedNames, List.cons_append,
        List.take_succ_cons]
      rw [ih (pre ++ [l]) _ n m (by simp [hsplit]) h3 (by omega)]

theorem enumerate_zones (cat : Catalog) (bl : Nat) (hs : 64 ≤ bl)
    (hlen : cat.mtimezone.length ≤ 65535) (hlen2 : cat.link.length ≤ 65535)
    (post pre : List timezone_t) (buff : List Char) (n m : Nat)
    (hsplit : cat.mtimezone = pre ++ post)
    (hfit : namesFit buff (post.map fun (z : timezone_t) => (z.zoneNameFromPrev, z.zonename)) = true)
    (hfit2 : namesFit
      ((qualifiedNames buff (post.map fun (z : timezone_t) => (z.zoneNameFromPrev, z.zonename))).getLastD buff)
      (cat.link.map fun (l : link_t) => (l.zoneNameFromPrev, l.zonename)) = true)
    (hm : n ≤ m) :
    enumerate cat bl n { idxTZ := pre.length, idxLink := 0 } buff
      = ((qualifiedNames buff (post.map fun (z : timezone_t) => (z.zoneNameFromPrev, z.zonename))).map some
          ++ (qualifiedNames
              ((qualifiedNames buff
                (post.map fun (z : timezone_t) => (z.zoneNameFromPrev, z.zonename))).getLastD buff)
              (cat.link.map fun (l : link_t) => (l.zoneNameFromPrev, l.zonename))).map some
          ++ List.replicate m none).take n := by
  induction post generalizing pre buff n m with
  | nil =>
    have hi : ¬ pre.length < cat.mtimezone.length := by simp [hsplit]
    simpa [qualifiedNames] using
      enumerate_links cat bl hs hlen2 cat.link [] buff n m pre.length hi rfl hfit2 hm
  | cons z post ih =>
    cases n with
    | zero => simp [enumerate]
    | succ n =>
      simp only [List.map_cons, namesFit, Bool.and_eq_true, decide_eq_true_eq] at hfit
      obtain ⟨⟨h1, h2⟩, h3⟩ := hfit
      have hlt : pre.length < cat.mtimezone.length := by simp [hsplit]
      have hget : cat.mtimezone[pre.length] = z := by
        have h0 : cat.mtimezone[pre.length]? = some z := by
          rw [hsplit, List.getElem?_append_right (le_refl _)]; simp
        obtain ⟨_, h⟩ := List.getElem?_eq_some.1 h0
        exact h
      have hmod : (pre.length + 1) % 65536 = (pre ++ [z]).length := by
        have : pre.length + 1 ≤ cat.mtimezone.length := hlt
        simp only [List.length_append, List.length_singleton]
        omega
      have hg : GetNextTZ cat { idxTZ := pre.length, idxLink := 0 } false buff bl
          = ({ idxTZ := (pre ++ [z]).length, idxLink := 0 },
              qualify buff z.zoneNameFromPrev z.zonename,
              some (qualify buff z.zoneNameFromPrev z.zonename)) := by
        simp only [GetNextTZ, hlt, hget, hmod, dite_true, Bool.false_eq_true,
          if_false, strlcpyAt_eq_qualify_of_le bl _ _ _ hs h1 h2]
      have hlast : (qualifiedNames buff
            ((z :: post).map fun (z : timezone_t) => (z.zoneNameFromPrev, z.zonename))).getLastD buff
          = (qualifiedNames (qualify buff z.zoneNameFromPrev z.zonename)
              (post.map fun (z : timezone_t) => (z.zoneNameFromPrev, z.zonename))).getLastD
                (qualify buff z.zoneNameFromPrev z.zonename) := by
        simp only [List.map_cons, qualifiedNames]
        cases qualifiedNames (qualify buff z.zoneNameFromPrev z.zonename)
            (post.map fun (z : timezone_t) => (z.zoneNameFromPrev, z.zonename)) with
        | nil => rfl
        | cons a l => rfl
      rw [hlast] at hfit2 ⊢
      simp only [enumerate, hg, List.map_cons, qualifiedNames, List.cons_append,
        List.take_succ_cons]
      rw [ih (pre ++ [z]) _ n m (by simp [hsplit]) h3 hfit2 (by omega)]

theorem names_of_fit_nil (buff : List Char) (es : List (Nat × List Char))
    (h : namesFit [] es = true) :
    namesFit buff es = true ∧ qualifiedNames buff es = qualifiedNames [] es := by
  cases es with
  | nil => exact ⟨rfl, rfl⟩
  | cons e rest =>
    simp only [namesFit, Bool.and_eq_true, decide_eq_true_eq, List.length_nil,
      Nat.le_zero_eq] at h
    obtain ⟨⟨h1, h2⟩, h3⟩ := h
    have hq : qualify buff e.1 e.2 = qualify [] e.1 e.2 := by simp [qualify, h1]
    refine ⟨?_, ?_⟩
    · simp only [namesFit, Bool.and_eq_true, decide_eq_true_eq, hq]
      exact ⟨⟨by omega, h2⟩, h3⟩
    · simp only [qualifiedNames, hq]

theorem getLastD_of_ne_nil (l : List (List Char)) (a b : List Char) (h : l ≠ []) :
    l.getLastD a = l.getLastD b := by
  cases l with
  | nil => exact absurd rfl h
  | cons x xs => rfl

theorem GetNextTZ_reset (cat : Catalog) (c : Cursor) (buff : List Char) (bl : Nat) :
    GetNextTZ cat c true buff bl = GetNextTZ cat { idxTZ := 0, idxLink := 0 } false buff bl := by
  simp [GetNextTZ]

/-- The sequence of a reset call and `n` further calls, in a catalog whose
names fit: the canonical names, the alias names, then `NULL`. -/
theorem enumerateFromReset_eq (cat : Catalog) (buffLen n : Nat) (c : Cursor) (buff : List Char)
    (hfit : cat.namesFit = true) (hs : 64 ≤ buffLen)
    (hz : cat.mtimezone.length ≤ 65535) (hl : cat.link.length ≤ 65535) :
    enumerateFromReset cat buffLen n c buff
      = ((cat.zoneNames ++ cat.linkNames).map some ++ List.replicate (n + 1) none).take (n + 1) := by
  have hstart : enumerateFromReset cat buffLen n c buff
      = enumerate cat buffLen (n + 1) { idxTZ := 0, idxLink := 0 } buff := by
    simp only [enumerateFromReset, enumerate, GetNextTZ_reset]
  simp only [Catalog.namesFit, Bool.and_eq_true] at hfit
  obtain ⟨hf1, hf2⟩ := hfit
  obtain ⟨hb1, hb2⟩ := names_of_fit_nil buff _ hf1
  have hlast : namesFit
        ((qualifiedNames buff
          (cat.mtimezone.map fun (z : timezone_t) => (z.zoneNameFromPrev, z.zonename))).getLastD buff)
        (cat.link.map fun (l : link_t) => (l.zoneNameFromPrev, l.zonename)) = true
      ∧ qualifiedNames
        ((qualifiedNames buff
          (cat.mtimezone.map fun (z : timezone_t) => (z.zoneNameFromPrev, z.zonename))).getLastD buff)
        (cat.link.map fun (l : link_t) => (l.zoneNameFromPrev, l.zonename)) = cat.linkNames := by
    by_cases hne : cat.zoneNames = []
    · have hf2b : namesFit [] (cat.link.map fun (l : link_t) => (l.zoneNameFromPrev, l.zonename))
          = true := by
        rw [hne] at hf2; exact hf2
      have hz0 : qualifiedNames buff
          (cat.mtimezone.map fun (z : timezone_t) => (z.zoneNameFromPrev, z.zonename)) = [] := by
        rw [hb2]; exact hne
      rw [hz0]
      obtain ⟨g1, g2⟩ := names_of_fit_nil buff _ hf2b
      refine ⟨g1, ?_⟩
      show qualifiedNames buff _ = _
      rw [g2]
      simp [Catalog.linkNames, hne]
    · have he : (qualifiedNames buff
            (cat.mtimezone.map fun (z : timezone_t) => (z.zoneNameFromPrev, z.zonename))).getLastD buff
          = cat.zoneNames.getLastD [] := by
        rw [hb2]
        exact getLastD_of_ne_nil _ _ _ hne
      rw [he]
      exact ⟨hf2, rfl⟩
  have hen := enumerate_zones cat buffLen hs hz hl cat.mtimezone [] buff (n + 1) (n + 1) rfl hb1
    hlast.1 (le_refl _)
  rw [hlast.2, hb2] at hen
  rw [hstart]
  simpa [Catalog.zoneNames] using hen

/-- C11: in a catalog whose names fit (and with at most 65535 entries in each
table) and a buffer of at least 64 bytes that only `GetNextTZ` writes, a call
with `reset = true` made at any point (any cursor, any buffer content) and the
`n` calls that follow it return the canonical names in table order, then the
alias names in table order, then `NULL` on every further call; the names are
`tzcount + linkcount` in number. -/
theorem C11_enumeration (cat : Catalog) (buffLen n : Nat) (c : Cursor) (buff : List Char)
    (hfit : cat.namesFit = true) (hs : 64 ≤ buffLen)
    (hz : cat.mtimezone.length ≤ 65535) (hl : cat.link.length ≤ 65535) :
    enumerateFromReset cat buffLen n c buff
        = ((cat.zoneNames ++ cat.linkNames).map some ++ List.replicate (n + 1) none).take (n + 1)
      ∧ (cat.zoneNames ++ cat.linkNames).length = cat.mtimezone.length + cat.link.length := by
  refine ⟨enumerateFromReset_eq cat buffLen n c buff hfit hs hz hl, ?_⟩
  simp [Catalog.zoneNames, Catalog.linkNames, qualifiedNames_length]

/-- C11 at the catalog `withLinks`: a reset in the middle of an enumeration
(cursor at 2 and 1, buffer holding another name) and eight further calls. -/
theorem C11_enumeration_witness :
    enumerateFromReset withLinks 64 8 { idxTZ := 2, idxLink := 1 } "US/Central".toList
        = ((withLinks.zoneNames ++ withLinks.linkNames).map some
            ++ List.replicate (8 + 1) none).take (8 + 1)
      ∧ (withLinks.zoneNames ++ withLinks.linkNames).length
        = withLinks.mtimezone.length + withLinks.link.length :=
  C11_enumeration withLinks 64 8 { idxTZ := 2, idxLink := 1 } "US/Central".toList
    (by decide) (by decide) (by decide) (by decide)

/-! ## C12: `AscTime` and the state -/

/-- C12 (counterexample): in the catalog `usEastern`, right after
`SetTZ("America/New_York")` the cache year is 0; `AscTime(1710054000)` leaves a
state with `dstYear = 2024` and the transition data the solver produces for
2024, not the state it was called in. -/
theorem C12_AscTime_changes_state :
    ((SetTZ usEastern State.init "America/New_York".toList).bind fun s =>
      (AscTime usEastern s 1710054000 false false 64).map fun r =>
        (s.dstYear, s.dstChangeAtUTC, r.1.dstYear, r.1.dstChangeAtUTC, decide (r.1 = s)))
      = some (0, (0, 0), 2024, (889254, 280854), false) := by
  rfl

theorem UpdateDSTInfo_frame (cat : Catalog) (s s1 : State) (u : Int)
    (h : UpdateDSTInfo cat s u = some s1) :
    s1.timezoneNum = s.timezoneNum ∧ s1.utcOffsetSecs = s.utcOffsetSecs
      ∧ s1.timezoneStr = s.timezoneStr := by
  unfold UpdateDSTInfo at h
  split at h
  · exact absurd h (by simp)
  · split at h
    · rw [← Option.some.inj h]; exact ⟨rfl, rfl, rfl⟩
    · rw [← Option.some.inj h]; exact ⟨rfl, rfl, rfl⟩

theorem LocalTime_state (cat : Catalog) (s s1 : State) (u v : Int)
    (h : LocalTime cat s u = some (s1, v)) :
    (if s.dstYear ≠ (gmtime u).tm_year + 1900 ∧ s.useDSTRule = true then
        UpdateDSTInfo cat s u else some s) = some s1 := by
  unfold LocalTime at h
  simp only at h
  split at h
  · exact absurd h (by simp)
  · rename_i s2 hs2
    rw [hs2]
    split at h
    · rw [(Prod.mk.inj (Option.some.inj h)).1]
    · split at h
      · rw [(Prod.mk.inj (Option.some.inj h)).1]
      · rw [(Prod.mk.inj (Option.some.inj h)).1]

/-- C12 (amended): `AscTime(u)` changes the active state exactly as
`LocalTime(u)` does. It never changes `timezoneNum`, `utcOffsetSecs` and
`timezoneStr`; it leaves the whole state unchanged when `useDSTRule` is false
or when `dstYear` already is the UTC year of `u`; otherwise the state it
leaves is the one the solver produces for `u`. -/
theorem C12_AscTime_state (cat : Catalog) (s : State) (u : Int) (use12Hr useDMY : Bool)
    (buffLen : Nat) :
    (AscTime cat s u use12Hr useDMY buffLen).map Prod.fst = (LocalTime cat s u).map Prod.fst
      ∧ (∀ s1 str, AscTime cat s u use12Hr useDMY buffLen = some (s1, str) →
          s1.timezoneNum = s.timezoneNum ∧ s1.utcOffsetSecs = s.utcOffsetSecs
            ∧ s1.timezoneStr = s.timezoneStr
            ∧ (s.useDSTRule = false ∨ s.dstYear = (gmtime u).tm_year + 1900 → s1 = s)
            ∧ (s.useDSTRule = true → s.dstYear ≠ (gmtime u).tm_year + 1900 →
                UpdateDSTInfo cat s u = some s1)) := by
  have hfst : (AscTime cat s u use12Hr useDMY buffLen).map Prod.fst
      = (LocalTime cat s u).map Prod.fst := by
    unfold AscTime
    cases LocalTime cat s u with
    | none => rfl
    | some r => rfl
  refine ⟨hfst, ?_⟩
  intro s1 str h
  have hl : ∃ v, LocalTime cat s u = some (s1, v) := by
    rw [h] at hfst
    cases hL : LocalTime cat s u with
    | none => rw [hL] at hfst; simp at hfst
    | some r =>
      rw [hL] at hfst
      simp only [Option.map_some'] at hfst
      exact ⟨r.2, by rw [Option.some.inj hfst]⟩
  obtain ⟨v, hv⟩ := hl
  have hst := LocalTime_state cat s s1 u v hv
  by_cases hc : s.dstYear ≠ (gmtime u).tm_year + 1900 ∧ s.useDSTRule = true
  · rw [if_pos hc] at hst
    obtain ⟨f1, f2, f3⟩ := UpdateDSTInfo_frame cat s s1 u hst
    refine ⟨f1, f2, f3, ?_, fun _ _ => hst⟩
    rintro (h1 | h1)
    · rw [h1] at hc; exact absurd hc.2 (by simp)
    · exact absurd h1 hc.1
  · rw [if_neg hc] at hst
    have he : s1 = s := (Option.some.inj hst).symm
    subst he
    refine ⟨rfl, rfl, rfl, fun _ => rfl, ?_⟩
    intro h1 h2
    exact absurd ⟨h2, h1⟩ hc

/-- C12 (amended) at the catalog `usEastern`, in the state `easternFresh`. -/
theorem C12_AscTime_state_witness :
    (AscTime usEastern easternFresh 1710054000 false false 64).map Prod.fst
      = (LocalTime usEastern easternFresh 1710054000).map Prod.fst
      ∧ (∀ s1 str, AscTime usEastern easternFresh 1710054000 false false 64 = some (s1, str) →
          s1.timezoneNum = easternFresh.timezoneNum
            ∧ s1.utcOffsetSecs = easternFresh.utcOffsetSecs
            ∧ s1.timezoneStr = easternFresh.timezoneStr
            ∧ (easternFresh.useDSTRule = false
                ∨ easternFresh.dstYear = (gmtime 1710054000).tm_year + 1900 → s1 = easternFresh)
            ∧ (easternFresh.useDSTRule = true →
                easternFresh.dstYear ≠ (gmtime 1710054000).tm_year + 1900 →
                UpdateDSTInfo usEastern easternFresh 1710054000 = some s1)) :=
  C12_AscTime_state usEastern easternFresh 1710054000 false false 64

/-! ## The calendar adapter on dates inside the `uint32_t` range -/

theorem daysBeforeYear_succ (Y : Nat) :
    daysBeforeYear (Y + 1) = daysBeforeYear Y + yearDays Y := by
  unfold daysBeforeYear yearDays
  simp only [leapDaysBefore]
  split <;> omega

theorem daysBeforeYear_mono {a b : Nat} (h : a ≤ b) : daysBeforeYear a ≤ daysBeforeYear b := by
  induction b with
  | zero =>
    have : a = 0 := by omega
    subst this; exact le_refl _
  | succ n ih =>
    by_cases hab : a = n + 1
    · subst hab; exact le_refl _
    · have := ih (by omega)
      rw [daysBeforeYear_succ]
      omega

theorem daysBeforeYear_ge (Y : Nat) : 365 * Y ≤ daysBeforeYear Y := by
  unfold daysBeforeYear; omega

set_option maxRecDepth 8000 in
theorem daysBeforeYear_136 : daysBeforeYear 136 = 49673 := by decide

theorem breakYear_target (Y time : Nat) (h1 : daysBeforeYear Y ≤ time)
    (h2 : time < daysBeforeYear (Y + 1)) (fuel year : Nat) (hy : year ≤ Y)
    (hf : Y - year < fuel) :
    breakYear fuel year (daysBeforeYear year) time = (Y, daysBeforeYear Y) := by
  induction fuel generalizing year with
  | zero => omega
  | succ n ih =>
    unfold breakYear
    rw [← daysBeforeYear_succ]
    by_cases hc : year = Y
    · subst hc
      rw [if_neg (by omega)]
    · have hm : daysBeforeYear (year + 1) ≤ daysBeforeYear Y := daysBeforeYear_mono (by omega)
      rw [if_pos (by omega)]
      exact ih (year + 1) (by omega) (by omega)

theorem monthDaysBefore_succ (Y i : Nat) :
    monthDaysBefore Y (i + 1) = monthDaysBefore Y i + monthLength Y i := by
  simp only [monthDaysBefore, monthLength]
  by_cases h1 : i = 1
  · subst h1
    by_cases hl : LEAP_YEAR Y = true <;> simp [hl, monthDays]
  · have : ¬ (i + 1 = 2) := by omega
    simp [h1, this]

theorem monthDaysBefore_mono (Y : Nat) {a b : Nat} (h : a ≤ b) :
    monthDaysBefore Y a ≤ monthDaysBefore Y b := by
  induction b with
  | zero =>
    have : a = 0 := by omega
    subst this; exact le_refl _
  | succ n ih =>
    by_cases hab : a = n + 1
    · subst hab; exact le_refl _
    · have := ih (by omega)
      rw [monthDaysBefore_succ]
      omega

theorem monthDaysBefore_12 (Y : Nat) : monthDaysBefore Y 12 = yearDays Y := by
  unfold yearDays
  by_cases hl : LEAP_YEAR Y = true <;> simp [monthDaysBefore, monthDays, hl]

theorem monthLength_bounds (Y M : Nat) (hM : M ≤ 11) :
    28 ≤ monthLength Y M ∧ monthLength Y M ≤ 31 := by
  unfold monthLength
  have : M = 0 ∨ M = 1 ∨ M = 2 ∨ M = 3 ∨ M = 4 ∨ M = 5 ∨ M = 6 ∨ M = 7 ∨ M = 8 ∨ M = 9
      ∨ M = 10 ∨ M = 11 := by omega
  rcases this with h | h | h | h | h | h | h | h | h | h | h | h <;> subst h <;>
    first
    | (simp [monthDays]; done)
    | (by_cases hl : LEAP_YEAR Y = true <;> simp [hl])

theorem breakMonth_target (Y M dd : Nat) (hdd : dd < monthLength Y M) (fuel k time : Nat)
    (hk : k ≤ M) (hf : M - k < fuel)
    (ht : time + monthDaysBefore Y k = monthDaysBefore Y M + dd) :
    breakMonth Y fuel k time = (M, dd) := by
  induction fuel generalizing k time with
  | zero => omega
  | succ n ih =>
    unfold breakMonth
    by_cases hc : k = M
    · subst hc
      have : time = dd := by omega
      subst this
      rw [if_neg (by omega)]
    · have hm : monthDaysBefore Y (k + 1) ≤ monthDaysBefore Y M :=
        monthDaysBefore_mono Y (by omega)
      rw [monthDaysBefore_succ] at hm
      rw [if_pos (by omega)]
      apply ih (k + 1) _ (by omega) (by omega)
      rw [monthDaysBefore_succ]
      omega

theorem dayNumber_lt_next_year (Y M dd : Nat) (hM : M ≤ 11) (hdd : dd < monthLength Y M) :
    dayNumber Y M dd < daysBeforeYear (Y + 1) := by
  have h1 : monthDaysBefore Y (M + 1) ≤ monthDaysBefore Y 12 := monthDaysBefore_mono Y (by omega)
  rw [monthDaysBefore_succ, monthDaysBefore_12] at h1
  rw [daysBeforeYear_succ]
  unfold dayNumber
  omega

/-- Fields of `gmtime` at UTC midnight of a date given by its day number. -/
theorem gmtime_of_dayNumber (Y M dd : Nat) (hM : M ≤ 11) (hdd : dd < monthLength Y M)
    (hD : dayNumber Y M dd < 49710) :
    gmtime ((86400 * dayNumber Y M dd : Nat) : Int)
      = { tm_sec := 0, tm_min := 0, tm_hour := 0, tm_wday := (dayNumber Y M dd + 4) % 7,
          tm_mday := dd + 1, tm_mon := M + 1, tm_year := Y + 70 } := by
  have hnext := dayNumber_lt_next_year Y M dd hM hdd
  have hge : daysBeforeYear Y ≤ dayNumber Y M dd := by unfold dayNumber; omega
  have hY : Y ≤ 136 := by
    have := daysBeforeYear_ge Y
    omega
  have htime : (((86400 * dayNumber Y M dd : Nat) : Int) % 4294967296).toNat
      = 86400 * dayNumber Y M dd := by
    omega
  have hdays : 86400 * dayNumber Y M dd / 60 / 60 / 24 = dayNumber Y M dd := by omega
  have hyear : breakYear 256 0 0 (dayNumber Y M dd) = (Y, daysBeforeYear Y) := by
    have := breakYear_target Y (dayNumber Y M dd) hge hnext 256 0 (by omega) (by omega)
    simpa [daysBeforeYear, leapDaysBefore] using this
  have hmonth : breakMonth Y 12 0 (dayNumber Y M dd - daysBeforeYear Y) = (M, dd) := by
    apply breakMonth_target Y M dd hdd 12 0 _ (by omega) (by omega)
    simp only [monthDaysBefore]
    unfold dayNumber
    omega
  simp only [gmtime, breakTime, htime, hdays, hyear, hmonth]
  congr 1 <;> omega

/-- Weekday and time of day of `gmtime` at UTC midnight of day number `x`. -/
theorem gmtime_midnight_wday (x : Nat) (hx : x < 49710) :
    (gmtime ((86400 * x : Nat) : Int)).tm_wday = (x + 4) % 7
      ∧ (gmtime ((86400 * x : Nat) : Int)).tm_hour = 0
      ∧ (gmtime ((86400 * x : Nat) : Int)).tm_min = 0
      ∧ (gmtime ((86400 * x : Nat) : Int)).tm_sec = 0 := by
  have htime : (((86400 * x : Nat) : Int) % 4294967296).toNat = 86400 * x := by omega
  simp only [gmtime, breakTime, htime]
  refine ⟨?_, ?_, ?_, ?_⟩ <;> omega

theorem dayNumber_first_bound (Y M : Nat) (hY : Y ≤ 135) (hM : M ≤ 11) :
    dayNumber Y M 0 + 28 ≤ 49673 := by
  have h1 : monthDaysBefore Y (M + 1) ≤ monthDaysBefore Y 12 := monthDaysBefore_mono Y (by omega)
  rw [monthDaysBefore_succ, monthDaysBefore_12] at h1
  have h2 : daysBeforeYear (Y + 1) ≤ daysBeforeYear 136 := daysBeforeYear_mono (by omega)
  rw [daysBeforeYear_136, daysBeforeYear_succ] at h2
  have := monthLength_bounds Y M hM
  unfold dayNumber
  omega

/-! ## The month loop of the solver on midnights -/

/-- Month of `gmtime` at UTC midnight `j` days after day 1 of month `M + 1` of
year `1970 + Y`: the month itself for the days of the month, another month
for the seven days that follow. -/
theorem gmtime_mon_after_first (Y M j : Nat) (hY : Y ≤ 135) (hM : M ≤ 11) :
    (j < monthLength Y M →
        gmtime ((86400 * (dayNumber Y M 0 + j) : Nat) : Int)
          = { tm_sec := 0, tm_min := 0, tm_hour := 0,
              tm_wday := (dayNumber Y M 0 + j + 4) % 7,
              tm_mday := j + 1, tm_mon := M + 1, tm_year := Y + 70 })
      ∧ (monthLength Y M ≤ j → j < monthLength Y M + 7 →
        (gmtime ((86400 * (dayNumber Y M 0 + j) : Nat) : Int)).tm_mon ≠ M + 1) := by
  have hb := dayNumber_first_bound Y M hY hM
  have hml := monthLength_bounds Y M hM
  constructor
  · intro hj
    have e : dayNumber Y M 0 + j = dayNumber Y M j := by unfold dayNumber; omega
    rw [e]
    exact gmtime_of_dayNumber Y M j hM hj (by rw [← e]; omega)
  · intro h1 h2
    by_cases hlast : M = 11
    · subst hlast
      have e : dayNumber Y 11 0 + j = dayNumber (Y + 1) 0 (j - monthLength Y 11) := by
        have h12 := monthDaysBefore_succ Y 11
        rw [monthDaysBefore_12] at h12
        have hs := daysBeforeYear_succ Y
        have h0 : monthDaysBefore (Y + 1) 0 = 0 := rfl
        unfold dayNumber
        omega
      have hml2 := monthLength_bounds (Y + 1) 0 (by omega)
      rw [e, gmtime_of_dayNumber (Y + 1) 0 (j - monthLength Y 11) (by omega) (by omega)
        (by rw [← e]; omega)]
      simp
    · have e : dayNumber Y M 0 + j = dayNumber Y (M + 1) (j - monthLength Y M) := by
        have hs := monthDaysBefore_succ Y M
        unfold dayNumber
        omega
      have hml2 := monthLength_bounds Y (M + 1) (by omega)
      rw [e, gmtime_of_dayNumber Y (M + 1) (j - monthLength Y M) (by omega) (by omega)
        (by rw [← e]; omega)]
      simp

/-- The loop of lines 214-217 stops on its own test, on the first step of a
week that leaves the month. -/
theorem lastLoop_exact (month L : Nat) (a0 : Nat)
    (hin : ∀ j, j < L → (gmtime ((86400 * (a0 + j) : Nat) : Int)).tm_mon = month)
    (hout : ∀ j, L ≤ j → j < L + 7 → (gmtime ((86400 * (a0 + j) : Nat) : Int)).tm_mon ≠ month)
    (fuel j mon : Nat) (hmon : mon = month ↔ j < L) (hj : j < L + 7)
    (hf : L + 7 ≤ j + 7 * fuel) :
    ∃ j2, lastLoop month fuel mon ((86400 * (a0 + j) : Nat) : Int)
        = ((86400 * (a0 + j2) : Nat) : Int)
      ∧ L ≤ j2 ∧ j2 < L + 7 ∧ j ≤ j2 ∧ (j2 - j) % 7 = 0 := by
  induction fuel generalizing j mon with
  | zero => omega
  | succ n ih =>
    unfold lastLoop
    by_cases hc : mon = month
    · have hjl : j < L := hmon.1 hc
      have hstep : ((86400 * (a0 + j) : Nat) : Int) + 7 * SECS_PER_DAY
          = ((86400 * (a0 + (j + 7)) : Nat) : Int) := by
        simp only [SECS_PER_DAY]; push_cast; ring
      rw [if_pos hc, hstep]
      have hmon2 : (gmtime ((86400 * (a0 + (j + 7)) : Nat) : Int)).tm_mon = month ↔ j + 7 < L := by
        constructor
        · intro h
          by_contra hn
          exact hout (j + 7) (by omega) (by omega) h
        · intro h; exact hin (j + 7) h
      obtain ⟨j2, e1, e2, e3, e4, e5⟩ := ih (j + 7) _ hmon2 (by omega) (by omega)
      exact ⟨j2, e1, e2, e3, by omega, by omega⟩
    · have hjl : ¬ j < L := fun h => hc (hmon.2 h)
      rw [if_neg hc]
      exact ⟨j, rfl, by omega, hj, le_refl _, by simp⟩

/-! ## The solver from one year to the next -/

theorem wdayLoop_shift (w fuel wday mday : Nat) (a c : Int) :
    wdayLoop w fuel wday mday (a + c)
      = ((wdayLoop w fuel wday mday a).1, (wdayLoop w fuel wday mday a).2.1,
          (wdayLoop w fuel wday mday a).2.2 + c) := by
  induction fuel generalizing wday mday a with
  | zero => simp [wdayLoop]
  | succ n ih =>
    unfold wdayLoop
    by_cases hc : w = wday
    · simp [hc]
    · simp only [ne_eq, hc, not_false_eq_true, if_true]
      rw [← ih]
      congr 1
      ring

/-- The month of `gmtime` does not change from one second to the next inside
a day. -/
theorem gmtime_mon_succ (x : Int) (h0 : 0 ≤ x) (h1 : x + 1 < 4294967296)
    (h2 : x % 86400 + 1 < 86400) :
    (gmtime (x + 1)).tm_mon = (gmtime x).tm_mon := by
  have hd : ((x + 1) % 4294967296).toNat / 60 / 60 / 24 = (x % 4294967296).toNat / 60 / 60 / 24 := by
    omega
  simp only [gmtime, breakTime, hd]

theorem lastLoop_shift (month fuel mon : Nat) (a : Int) (h0 : 0 ≤ a)
    (h1 : a + 1 + 604800 * (fuel : Int) < 4294967296) (h2 : a % 86400 + 1 < 86400) :
    lastLoop month fuel mon (a + 1) = lastLoop month fuel mon a + 1 := by
  induction fuel generalizing mon a with
  | zero => simp [lastLoop]
  | succ n ih =>
    unfold lastLoop
    by_cases hc : mon = month
    · simp only [hc, if_true]
      have e : a + 1 + 7 * (SECS_PER_DAY : Int) = (a + 7 * (SECS_PER_DAY : Int)) + 1 := by ring
      have hm : (gmtime (a + 7 * (SECS_PER_DAY : Int) + 1)).tm_mon
          = (gmtime (a + 7 * (SECS_PER_DAY : Int))).tm_mon :=
        gmtime_mon_succ _ (by simp only [SECS_PER_DAY]; omega)
          (by simp only [SECS_PER_DAY]; push_cast at h1 ⊢; omega)
          (by simp only [SECS_PER_DAY]; omega)
      rw [e, hm]
      exact ih _ _ (by simp only [SECS_PER_DAY]; omega)
        (by simp only [SECS_PER_DAY]; push_cast at h1 ⊢; omega)
        (by simp only [SECS_PER_DAY]; omega)
    · simp [hc]

theorem lastLoop_shift_nat (month fuel mon : Nat) (a : Int) (Y : Nat) (h0 : 0 ≤ a)
    (h1 : a + Y + 604800 * (fuel : Int) < 4294967296) (h2 : a % 86400 + Y < 86400) :
    lastLoop month fuel mon (a + ((Y : Nat) : Int)) = lastLoop month fuel mon a + ((Y : Nat) : Int) := by
  induction Y with
  | zero => simp
  | succ n ih =>
    have e : a + ((n + 1 : Nat) : Int) = (a + ((n : Nat) : Int)) + 1 := by push_cast; ring
    rw [e, lastLoop_shift _ _ _ _ (by omega) (by push_cast at h1; omega) (by omega),
      ih (by push_cast at h1; omega) (by omega)]
    push_cast
    ring

/-- The loop of lines 214-217 in the runs the solver makes, from the weekday
found in the first week of January 1970: it stops on its own test, after the
weeks of January for a rule of January and at once for any other month. -/
theorem lastLoop_from_epoch (month k Y : Nat) (hk : k ≤ 6) (hY : Y < 256) :
    ∃ j2, lastLoop month 6 1 (((Y : Nat) : Int) + SECS_PER_DAY * ((k : Nat) : Int))
        = ((Y : Nat) : Int) + SECS_PER_DAY * ((j2 : Nat) : Int)
      ∧ k ≤ j2 ∧ (j2 - k) % 7 = 0
      ∧ (month = 1 → 31 ≤ j2 ∧ j2 < 38) ∧ (month ≠ 1 → j2 = k) := by
  have hjan := gmtime_mon_after_first 0 0
  have hlen : monthLength 0 0 = 31 := by decide
  have hday : dayNumber 0 0 0 = 0 := by decide
  rw [hlen, hday] at hjan
  have e : ((Y : Nat) : Int) + SECS_PER_DAY * ((k : Nat) : Int)
      = ((86400 * (0 + k) : Nat) : Int) + ((Y : Nat) : Int) := by
    simp only [SECS_PER_DAY]; push_cast; ring
  rw [e, lastLoop_shift_nat _ _ _ _ _ (by omega) (by push_cast; omega) (by omega)]
  by_cases hm : month = 1
  · subst hm
    obtain ⟨j2, l1, l2, l3, l4, l5⟩ := lastLoop_exact 1 31 0
      (fun j hj => by rw [(hjan j (by omega) (by omega)).1 hj])
      (fun j h1 h2 => (hjan j (by omega) (by omega)).2 h1 h2)
      6 k 1 (by simp; omega) (by omega) (by omega)
    refine ⟨j2, ?_, l4, l5, fun _ => ⟨l2, l3⟩, fun h => absurd rfl h⟩
    rw [l1]
    simp only [SECS_PER_DAY]; push_cast; ring
  · obtain ⟨j2, l1, l2, l3, l4, l5⟩ := lastLoop_exact month 0 0
      (fun j hj => absurd hj (by omega))
      (fun j h1 h2 => by
        rw [(hjan j (by omega) (by omega)).1 (by omega)]
        exact fun h => hm h.symm)
      6 k 1 (by constructor <;> intro h <;> [exact absurd h.symm hm; omega]) (by omega) (by omega)
    have hj2 : j2 = k := by omega
    subst hj2
    refine ⟨j2, ?_, le_refl _, by simp, fun h => absurd h hm, fun _ => rfl⟩
    rw [l1]
    simp only [SECS_PER_DAY]; push_cast; ring

/-- C13 (evaluation at the failing input): for the rule "Sunday on or after
8 March" in 2024 the solver resolves the instant 864054, which `gmtime` reads
as 11 January 1970, 00:00:54. The earliest Sunday on or after 8 March 2024 is
10 March 2024, whose UTC midnight is 1710028800. The month of the rule has no
effect: the same rule for November resolves the same instant. -/
theorem C13_weekday_resolved_in_1970 :
    resolveDay 2024
        { name := 1, month := 3, daytrig := .SUN_GTEQ, daynum := 8, athr := 2, atmin := 0,
          atref := .ATREF_S, offsethrs := 1, offsetmins := 0, fmtstr := "D".toList } = 864054
      ∧ gmtime 864054
        = { tm_sec := 54, tm_min := 0, tm_hour := 0, tm_wday := 0, tm_mday := 11, tm_mon := 1,
            tm_year := 70 }
      ∧ gmtime 1710028800
        = { tm_sec := 0, tm_min := 0, tm_hour := 0, tm_wday := 0, tm_mday := 10, tm_mon := 3,
            tm_year := 124 }
      ∧ resolveDay 2024
        { name := 1, month := 11, daytrig := .SUN_GTEQ, daynum := 8, athr := 2, atmin := 0,
          atref := .ATREF_S, offsethrs := 1, offsetmins := 0, fmtstr := "D".toList } = 864054 := by
  exact ⟨by rfl, by rfl, by rfl, by rfl⟩

/-! ## C14: last weekday of a month -/

/-- C14 (evaluation at the failing input): for the rule "last Sunday of
December" in 2024 the solver resolves the instant -345546: the start is 54
seconds after the epoch, in January, so the loop over the weeks of December
does not run and one week is taken off the first Sunday of January 1970. The
last Sunday of December 2024 is 29 December, whose UTC midnight is
1735430400. -/
theorem C14_last_weekday_resolved_before_1970 :
    resolveDay 2024
        { name := 1, month := 12, daytrig := .SUN_LAST, daynum := 0, athr := 1, atmin := 0,
          atref := .ATREF_U, offsethrs := 0, offsetmins := 0, fmtstr := "S".toList } = -345546
      ∧ (-345546 : Int) = 54 + 3 * SECS_PER_DAY - 7 * SECS_PER_DAY
      ∧ (gmtime 54).tm_mon = 1
      ∧ gmtime 1735430400
        = { tm_sec := 0, tm_min := 0, tm_hour := 0, tm_wday := 0, tm_mday := 29, tm_mon := 12,
            tm_year := 124 }
      ∧ (gmtime (1735430400 + 7 * SECS_PER_DAY)).tm_mon = 1 := by
  exact ⟨by rfl, by decide, by rfl, by rfl, by rfl⟩

/-! ## C15: the trigger time -/

/-- C15 (counterexample): for the rule `beforeMidnight` (`athr = -1`,
`atmin = 30`) the solver adds -5400 seconds, while
`sign(athr)*|athr|*3600 + atmin*60` is -1800. -/
theorem C15_negative_hour_with_minutes :
    secToFire beforeMidnight = -5400
      ∧ Int.sign beforeMidnight.athr * (beforeMidnight.athr.natAbs : Int) * 3600
          + (beforeMidnight.atmin : Int) * 60 = -1800
      ∧ changeAtUTC 0 2024 beforeMidnight beforeMidnight
          = resolveDay 2024 beforeMidnight + -5400 := by
  decide

/-- C15 (amended): the seconds the solver adds to the resolved day's UTC
midnight are `athr*3600 + atmin*60` when `athr` is not negative and
`athr*3600 - atmin*60` when it is negative (the sign of the hour applies to
the minutes too); this is `sign(athr)*|athr|*3600 + atmin*60` whenever
`athr ≥ 0` or `atmin = 0`. For a rule in UTC the recorded instant is the
resolved midnight plus these seconds. -/
theorem C15_trigger_seconds (r other : rule_t) (base : Int) (curYear : Nat) :
    secToFire r
        = r.athr * 3600 + (if r.athr < 0 then -((r.atmin : Int) * 60) else (r.atmin : Int) * 60)
      ∧ (0 ≤ r.athr ∨ r.atmin = 0 →
          secToFire r = Int.sign r.athr * (r.athr.natAbs : Int) * 3600 + (r.atmin : Int) * 60)
      ∧ (r.atref = .ATREF_U →
          changeAtUTC base curYear r other = resolveDay curYear r + secToFire r) := by
  have habs : (r.athr.natAbs : Int) = if r.athr < 0 then -r.athr else r.athr := by
    split <;> omega
  have hsign : Int.sign r.athr * (r.athr.natAbs : Int) = r.athr := Int.sign_mul_natAbs r.athr
  have h1 : secToFire r
      = r.athr * 3600 + (if r.athr < 0 then -((r.atmin : Int) * 60) else (r.atmin : Int) * 60) := by
    simp only [secToFire, SECS_PER_HOUR, SECS_PER_MIN, habs]
    push_cast
    split <;> ring
  refine ⟨h1, ?_, ?_⟩
  · intro h
    rw [h1, hsign]
    rcases h with h | h
    · rw [if_neg (by omega)]
    · simp [h]
  · intro h
    simp [changeAtUTC, h]

/-- C15 (amended) at the rule `beforeMidnight`. -/
theorem C15_trigger_seconds_witness :
    secToFire beforeMidnight
        = beforeMidnight.athr * 3600
          + (if beforeMidnight.athr < 0 then -((beforeMidnight.atmin : Int) * 60)
            else (beforeMidnight.atmin : Int) * 60)
      ∧ (0 ≤ beforeMidnight.athr ∨ beforeMidnight.atmin = 0 →
          secToFire beforeMidnight
            = Int.sign beforeMidnight.athr * (beforeMidnight.athr.natAbs : Int) * 3600
              + (beforeMidnight.atmin : Int) * 60)
      ∧ (beforeMidnight.atref = .ATREF_U →
          changeAtUTC 0 2024 beforeMidnight beforeMidnight
            = resolveDay 2024 beforeMidnight + secToFire beforeMidnight) :=
  C15_trigger_seconds beforeMidnight beforeMidnight 0 2024

/-! ## C16: the reference of the trigger time -/

/-- C16: for a zone with exactly two matching rules `r0`, `r1`, with
`raw_i` the resolved day's midnight plus the trigger time of rule `i`, the
solver records `dstChangeAtUTC[i] = raw_i` for a rule in UTC,
`raw_i - utcOffsetSecs` for a rule in standard time, and
`raw_i - utcOffsetSecs - dstOffsetSecs[1-i]` (the recorded delta of the other
rule) for a rule in wall time. -/
theorem C16_reference_adjustment (cat : Catalog) (s : State) (u : Int) (z : timezone_t)
    (r0 r1 : rule_t) (hz : cat.mtimezone[s.timezoneNum]? = some z)
    (hp : cat.rules.filter (fun r => decide (r.name = z.rule)) = [r0, r1]) :
    ∃ s1, UpdateDSTInfo cat s u = some s1
      ∧ s1.dstOffsetSecs = (dstoffsecs r0, dstoffsecs r1)
      ∧ s1.dstChangeAtUTC.1
        = (match r0.atref with
          | .ATREF_U => resolveDay (1900 + (gmtime u).tm_year) r0 + secToFire r0
          | .ATREF_S => resolveDay (1900 + (gmtime u).tm_year) r0 + secToFire r0 - s.utcOffsetSecs
          | .ATREF_W => resolveDay (1900 + (gmtime u).tm_year) r0 + secToFire r0
              - s.utcOffsetSecs - s1.dstOffsetSecs.2)
      ∧ s1.dstChangeAtUTC.2
        = (match r1.atref with
          | .ATREF_U => resolveDay (1900 + (gmtime u).tm_year) r1 + secToFire r1
          | .ATREF_S => resolveDay (1900 + (gmtime u).tm_year) r1 + secToFire r1 - s.utcOffsetSecs
          | .ATREF_W => resolveDay (1900 + (gmtime u).tm_year) r1 + secToFire r1
              - s.utcOffsetSecs - s1.dstOffsetSecs.1) := by
  refine ⟨_, UpdateDSTInfo_pair cat s u z r0 r1 hz hp, rfl, ?_, ?_⟩
  · simp only [changeAtUTC]
  · simp only [changeAtUTC]

/-- C16 at the zone "America/New_York" of `usEastern` (first rule in standard
time, second rule in wall time). -/
theorem C16_reference_adjustment_witness :
    ∃ s1, UpdateDSTInfo usEastern easternFresh 1710054000 = some s1
      ∧ s1.dstOffsetSecs = (3600, 0)
      ∧ s1.dstChangeAtUTC.1
        = resolveDay (1900 + (gmtime 1710054000).tm_year)
            { name := 1, month := 3, daytrig := .SUN_GTEQ, daynum := 8, athr := 2, atmin := 0,
              atref := .ATREF_S, offsethrs := 1, offsetmins := 0, fmtstr := "D".toList }
          + 7200 - easternFresh.utcOffsetSecs
      ∧ s1.dstChangeAtUTC.2
        = resolveDay (1900 + (gmtime 1710054000).tm_year)
            { name := 1, month := 11, daytrig := .SUN_GTEQ, daynum := 1, athr := 2, atmin := 0,
              atref := .ATREF_W, offsethrs := 0, offsetmins := 0, fmtstr := "S".toList }
          + 7200 - easternFresh.utcOffsetSecs - s1.dstOffsetSecs.1 :=
  C16_reference_adjustment usEastern easternFresh 1710054000
    { zonename := "America/New_York".toList, zoneNameFromPrev := 0, gmtoffhr := -5,
      gmtoffmin := 0, rule := 1, formatstr := "E%sT".toList }
    { name := 1, month := 3, daytrig := .SUN_GTEQ, daynum := 8, athr := 2, atmin := 0,
      atref := .ATREF_S, offsethrs := 1, offsetmins := 0, fmtstr := "D".toList }
    { name := 1, month := 11, daytrig := .SUN_GTEQ, daynum := 1, athr := 2, atmin := 0,
      atref := .ATREF_W, offsethrs := 0, offsetmins := 0, fmtstr := "S".toList }
    (by decide) (by decide)

/-! ## C17: the base offset in seconds -/

/-- For an offset that is not negative, the value `SetTZ` stores is
`gmtoffhr*3600 + gmtoffmin`. -/
theorem gmtoffsecs_of_nonneg (z : timezone_t) (hz : 0 ≤ z.gmtoffhr) :
    gmtoffsecs z = z.gmtoffhr * 3600 + (z.gmtoffmin : Int) := by
  simp only [gmtoffsecs]
  rw [if_neg (by omega)]
  omega

/-- C17 (evaluation at the failing input): for the entry "Asia/Kolkata" of the
catalog `kolkata`, with `gmtoffhr = 5` and `gmtoffmin = 30`, `SetTZ` stores
`utcOffsetSecs = 18030`, that is `5*3600 + 30`: the minutes are added as
seconds, where 5 h 30 min is 19800 seconds. -/
theorem C17_minutes_not_converted :
    (SetTZ kolkata State.init "Asia/Kolkata".toList).map (fun s => s.utcOffsetSecs) = some 18030
      ∧ (18030 : Int) = 5 * 3600 + 30
      ∧ (18030 : Int) ≠ 5 * 3600 + 30 * 60 := by
  decide

/-! ## C18: the DST delta in seconds -/

/-- For a delta that is not negative, the value the solver records is
`offsethrs*3600 + offsetmins`. -/
theorem dstoffsecs_of_nonneg (r : rule_t) (hr : 0 ≤ r.offsethrs) :
    dstoffsecs r = r.offsethrs * 3600 + (r.offsetmins : Int) := by
  simp only [dstoffsecs]
  rw [if_neg (by omega)]
  omega

/-- C18 (evaluation at the failing input): in the catalog `lordHowe` the first
rule has `offsethrs = 0` and `offsetmins = 30`; the solver records
`dstOffsetSecs[0] = 30`, where 0 h 30 min is 1800 seconds, and the wall-time
adjustment of the second rule subtracts the same 30:
`dstChangeAtUTC[1] = 259254 + 7200 - 36030 - 30`, with 259254 the day the
solver resolves for that rule. -/
theorem C18_delta_minutes_not_converted :
    ((SetTZ lordHowe State.init "Australia/Lord_Howe".toList).bind fun s =>
        (UpdateDSTInfo lordHowe s 1710054000).map fun s1 =>
          (s.utcOffsetSecs, s1.dstOffsetSecs, s1.dstChangeAtUTC.2))
      = some (36030, (30, 0), 259254 + 7200 - 36030 - 30)
      ∧ (30 : Int) ≠ 0 * 3600 + 30 * 60 := by
  exact ⟨by rfl, by decide⟩

/-! ## C19: the cache invariant -/

theorem UpdateDSTInfo_of_ruleLoop_pair (cat : Catalog) (s : State) (u : Int) (z : timezone_t)
    (r0 r1 : rule_t) (hz : cat.mtimezone[s.timezoneNum]? = some z)
    (hp : ruleLoop z.rule cat.rules [] = [r0, r1]) :
    UpdateDSTInfo cat s u = some
      { s with
        dstString := (strlcpy 4 r0.fmtstr, strlcpy 4 r1.fmtstr)
        dstYear := 1900 + (gmtime u).tm_year
        dstChangeAtUTC :=
          (changeAtUTC s.utcOffsetSecs (1900 + (gmtime u).tm_year) r0 r1,
           changeAtUTC s.utcOffsetSecs (1900 + (gmtime u).tm_year) r1 r0)
        dstOffsetSecs := (dstoffsecs r0, dstoffsecs r1) } := by
  have hle := gmtime_year_le u
  have hmod : (1900 + (gmtime u).tm_year) % 65536 = 1900 + (gmtime u).tm_year := by omega
  unfold UpdateDSTInfo
  simp [hz, hp, hmod]

theorem UpdateDSTInfo_of_ruleLoop_other (cat : Catalog) (s : State) (u : Int) (z : timezone_t)
    (hz : cat.mtimezone[s.timezoneNum]? = some z)
    (hp : ¬ ∃ r0 r1, ruleLoop z.rule cat.rules [] = [r0, r1]) :
    UpdateDSTInfo cat s u = some { s with useDSTRule := false } := by
  unfold UpdateDSTInfo
  simp only [hz]
  split
  · rename_i r0 r1 h
    exact absurd ⟨r0, r1, h⟩ hp
  · rfl

theorem SetTZ_StateOK (cat : Catalog) (s0 s : State) (name : List Char)
    (h : SetTZ cat s0 name = some s) : StateOK cat s := by
  cases hz : cat.mtimezone[SetTZ_timezoneNum cat name]? with
  | none => simp [SetTZ, hz] at h
  | some z =>
    rw [SetTZ_of_entry cat s0 name z hz] at h
    rw [← Option.some.inj h]
    refine ⟨z, hz, rfl, ?_, ?_⟩
    · intro hr _; simp [hr]
    · intro hu hy
      by_cases hr : z.rule = cat.RULE_NONE
      · simp [hr] at hu
      · simp [hr] at hy

theorem LocalTime_StateOK (cat : Catalog) (s s1 : State) (u v : Int) (hok : StateOK cat s)
    (h : LocalTime cat s u = some (s1, v)) :
    StateOK cat s1
      ∧ (s1.useDSTRule = true → s1.dstYear = 1900 + (gmtime u).tm_year) := by
  have hst := LocalTime_state cat s s1 u v h
  obtain ⟨z, hz, hb, hflag, hdata⟩ := hok
  have hge := gmtime_year_ge u
  by_cases hc : s.dstYear ≠ (gmtime u).tm_year + 1900 ∧ s.useDSTRule = true
  · rw [if_pos hc] at hst
    by_cases hp : ∃ r0 r1, ruleLoop z.rule cat.rules [] = [r0, r1]
    · obtain ⟨r0, r1, hp⟩ := hp
      rw [UpdateDSTInfo_of_ruleLoop_pair cat s u z r0 r1 hz hp] at hst
      rw [← Option.some.inj hst]
      refine ⟨⟨z, hz, hb, fun _ _ => hc.2, fun _ _ => ⟨r0, r1, hp, rfl, rfl, rfl⟩⟩, fun _ => rfl⟩
    · rw [UpdateDSTInfo_of_ruleLoop_other cat s u z hz hp] at hst
      rw [← Option.some.inj hst]
      refine ⟨⟨z, hz, hb, fun _ h2 => absurd h2 hp, fun h1 => ?_⟩, fun h1 => ?_⟩
      · simp at h1
      · simp at h1
  · rw [if_neg hc] at hst
    have he : s1 = s := (Option.some.inj hst).symm
    subst he
    refine ⟨⟨z, hz, hb, hflag, hdata⟩, fun h1 => ?_⟩
    by_contra hne
    exact hc ⟨fun h2 => hne (by omega), h1⟩

theorem runCalls_StateOK (cat : Catalog) (calls : List Call) (s s1 : State)
    (hok : StateOK cat s) (h : runCalls cat s calls = some s1) : StateOK cat s1 := by
  induction calls generalizing s with
  | nil =>
    simp only [runCalls] at h
    rw [← Option.some.inj h]; exact hok
  | cons c cs ih =>
    cases c with
    | setTZ n =>
      simp only [runCalls] at h
      cases h2 : SetTZ cat s n with
      | none => rw [h2] at h; simp at h
      | some s2 =>
        rw [h2] at h
        exact ih s2 (SetTZ_StateOK cat s s2 n h2) h
    | localTime u =>
      simp only [runCalls] at h
      cases h2 : LocalTime cat s u with
      | none => rw [h2] at h; simp at h
      | some r =>
        rw [h2] at h
        exact ih r.1 (LocalTime_StateOK cat s r.1 u r.2 hok h2).1 h

/-- C19: for every state `s` reached from any state by `SetTZ` followed by any
sequence of `SetTZ` and `LocalTime` calls, the selected entry `z` exists and:
if `useDSTRule` is true and `dstYear` is not 0, then `dstChangeAtUTC` and
`dstOffsetSecs` are the solver's values for the first two rules matching `z`
and the year `dstYear`, and running the solver for any instant of that year
gives back `s`; and if `z` has a rule name with exactly two matching rules,
every `LocalTime(u)` from `s` leaves `dstYear` equal to the UTC year of `u`. -/
theorem C19_cache_invariant (cat : Catalog) (s0 s : State) (name : List Char)
    (calls : List Call)
    (h : ((SetTZ cat s0 name).bind fun s1 => runCalls cat s1 calls) = some s) :
    ∃ z, cat.mtimezone[s.timezoneNum]? = some z
      ∧ (s.useDSTRule = true → s.dstYear ≠ 0 →
          ∃ r0 r1, (cat.rules.filter fun r => decide (r.name = z.rule)).take 2 = [r0, r1]
            ∧ s.dstChangeAtUTC
              = (changeAtUTC s.utcOffsetSecs s.dstYear r0 r1,
                 changeAtUTC s.utcOffsetSecs s.dstYear r1 r0)
            ∧ s.dstOffsetSecs = (dstoffsecs r0, dstoffsecs r1)
            ∧ ∀ u, 1900 + (gmtime u).tm_year = s.dstYear → UpdateDSTInfo cat s u = some s)
      ∧ (z.rule ≠ cat.RULE_NONE →
          (cat.rules.filter fun r => decide (r.name = z.rule)).length = 2 →
          ∀ u, ∃ s2 v, LocalTime cat s u = some (s2, v)
            ∧ s2.dstYear = 1900 + (gmtime u).tm_year) := by
  cases h1 : SetTZ cat s0 name with
  | none => rw [h1] at h; simp at h
  | some s1 =>
    rw [h1] at h
    simp only [Option.some_bind] at h
    have hok := runCalls_StateOK cat calls s1 s (SetTZ_StateOK cat s0 s1 name h1) h
    have hok2 := hok
    obtain ⟨z, hz, hb, hflag, hdata⟩ := hok
    refine ⟨z, hz, ?_, ?_⟩
    · intro hu hy
      obtain ⟨r0, r1, hp, d1, d2, d3⟩ := hdata hu hy
      refine ⟨r0, r1, by rw [← ruleLoop_eq]; exact hp, d1, d2, ?_⟩
      intro u hyu
      rw [UpdateDSTInfo_of_ruleLoop_pair cat s u z r0 r1 hz hp, hyu, ← d1, ← d2, ← d3]
    · intro hr hlen u
      have hp : ∃ r0 r1, ruleLoop z.rule cat.rules [] = [r0, r1] := by
        rw [ruleLoop_eq]
        generalize cat.rules.filter (fun r => decide (r.name = z.rule)) = l at hlen
        match l, hlen with
        | [a, b], _ => exact ⟨a, b, rfl⟩
      have hu : s.useDSTRule = true := hflag hr hp
      obtain ⟨r0, r1, hp⟩ := hp
      have hsome : ∃ s2 v, LocalTime cat s u = some (s2, v) := by
        unfold LocalTime
        by_cases hc : s.dstYear ≠ (gmtime u).tm_year + 1900 ∧ s.useDSTRule = true
        · simp only [hc, ne_eq, not_false_eq_true, and_self, if_true,
            UpdateDSTInfo_of_ruleLoop_pair cat s u z r0 r1 hz hp]
          split
          · exact ⟨_, _, rfl⟩
          · split
            · exact ⟨_, _, rfl⟩
            · exact ⟨_, _, rfl⟩
        · simp only [hc, if_false]
          split
          · exact ⟨_, _, rfl⟩
          · split
            · exact ⟨_, _, rfl⟩
            · exact ⟨_, _, rfl⟩
      obtain ⟨s2, v, hl⟩ := hsome
      obtain ⟨-, hyr⟩ := LocalTime_StateOK cat s s2 u v hok2 hl
      refine ⟨s2, v, hl, hyr ?_⟩
      -- `useDSTRule` stays true: the rule group is a pair
      have hst := LocalTime_state cat s s2 u v hl
      by_cases hc : s.dstYear ≠ (gmtime u).tm_year + 1900 ∧ s.useDSTRule = true
      · rw [if_pos hc, UpdateDSTInfo_of_ruleLoop_pair cat s u z r0 r1 hz hp] at hst
        rw [← Option.some.inj hst]
        exact hu
      · rw [if_neg hc] at hst
        rw [← Option.some.inj hst]
        exact hu

/-- C19 in the catalog `usEastern`: `SetTZ`, a call in 2023, `SetTZ("UTC")`,
`SetTZ` again and a call in 2024 lead to the state `eastern2024`. -/
theorem C19_cache_invariant_witness :
    ∃ z, usEastern.mtimezone[eastern2024.timezoneNum]? = some z
      ∧ (eastern2024.useDSTRule = true → eastern2024.dstYear ≠ 0 →
          ∃ r0 r1, (usEastern.rules.filter fun r => decide (r.name = z.rule)).take 2 = [r0, r1]
            ∧ eastern2024.dstChangeAtUTC
              = (changeAtUTC eastern2024.utcOffsetSecs eastern2024.dstYear r0 r1,
                 changeAtUTC eastern2024.utcOffsetSecs eastern2024.dstYear r1 r0)
            ∧ eastern2024.dstOffsetSecs = (dstoffsecs r0, dstoffsecs r1)
            ∧ ∀ u, 1900 + (gmtime u).tm_year = eastern2024.dstYear →
                UpdateDSTInfo usEastern eastern2024 u = some eastern2024)
      ∧ (z.rule ≠ usEastern.RULE_NONE →
          (usEastern.rules.filter fun r => decide (r.name = z.rule)).length = 2 →
          ∀ u, ∃ s2 v, LocalTime usEastern eastern2024 u = some (s2, v)
            ∧ s2.dstYear = 1900 + (gmtime u).tm_year) :=
  C19_cache_invariant usEastern State.init eastern2024 "America/New_York".toList
    [.localTime 1700000000, .setTZ "UTC".toList, .setTZ "America/New_York".toList,
      .localTime 1710054000] (by rfl)

/-! ## C20: enumerated names resolve -/

end PsychoPlug
